import Mathlib

/-!
Verification of the omarchy-cybex TUI installer core
(`src/tui/utils/state.py`, `src/tui/utils/installer.py`,
`src/tui/widgets/option_list.py`, `src/tui/screens/main_screen.py`,
`src/tui/screens/install_modal.py`).

The durable state file is JSON handled by Python's `json` module
(`json.loads` / `json.dumps(state, indent=2)`).  We embed the JSON
fragment the state file lives in (null, booleans, strings, arrays,
objects; numbers are never produced by this program and are left out of
the grammar).  Strings are Unicode scalar strings (Lean `String`); lone
surrogates, which CPython strings can hold, are not representable and
stay outside the modeled fragment, as do duplicate object keys (a Python
dict cannot hold them).  `dumps` reproduces `json.dumps(·, indent=2)`
byte for byte, including `ensure_ascii` escaping (`\uXXXX`, surrogate
pairs for astral characters); `parseJson` models `json.loads` on this
fragment (whitespace skipping, escape decoding, rejection of trailing
garbage and of malformed input).
-/

/-- A JSON value of the state-file fragment: Python's `json` values minus
numbers, which the installer state never contains.  Objects are ordered
key-value lists, mirroring insertion-ordered Python dicts. -/
inductive Json where
  | null : Json
  | bool (b : Bool) : Json
  | str (s : String) : Json
  | arr (elems : List Json) : Json
  | obj (fields : List (String × Json)) : Json

/-- Lowercase hexadecimal digit character for `n < 16`, as produced by
CPython's `'\u%04x' % n` escape formatting. -/
def hexDig (n : Nat) : Char :=
  if n < 10 then Char.ofNat (48 + n) else Char.ofNat (97 + (n - 10))

/-- The six-character escape `\uXXXX` (lowercase hex) for a code unit
`n < 0x10000`. -/
def uEsc (n : Nat) : List Char :=
  ['\\', 'u', hexDig (n / 4096 % 16), hexDig (n / 256 % 16),
   hexDig (n / 16 % 16), hexDig (n % 16)]

/-- One character escaped exactly as CPython's `json.dumps` with
`ensure_ascii=True` does: the short escapes of `ESCAPE_DCT`, `\u00xx`
for other control characters, printable ASCII verbatim, `\uXXXX` for
non-ASCII BMP characters and a surrogate pair for astral ones. -/
def escChar (c : Char) : List Char :=
  if c = '"' then ['\\', '"']
  else if c = '\\' then ['\\', '\\']
  else if c = '\x08' then ['\\', 'b']
  else if c = '\x0c' then ['\\', 'f']
  else if c = '\n' then ['\\', 'n']
  else if c = '\r' then ['\\', 'r']
  else if c = '\t' then ['\\', 't']
  else if c.toNat < 0x20 then uEsc c.toNat
  else if c.toNat < 0x7f then [c]
  else if c.toNat < 0x10000 then uEsc c.toNat
  else uEsc (0xd800 + (c.toNat - 0x10000) / 0x400)
       ++ uEsc (0xdc00 + (c.toNat - 0x10000) % 0x400)

/-- A JSON string literal: quote, escaped characters, quote. -/
def dumpStr (s : String) : List Char :=
  '"' :: (s.toList.flatMap escChar ++ ['"'])

/-- Indentation at nesting level `lvl` for `json.dumps(·, indent=2)`:
two spaces per level. -/
def pad (lvl : Nat) : List Char :=
  List.replicate (2 * lvl) ' '

mutual

/-- Serialization of a value at nesting level `lvl`, byte for byte as
`json.dumps(value, indent=2)` lays it out (item separator `,`, key
separator `: `, a newline and deeper indentation before every element,
empty containers inline). -/
def dumpVal (lvl : Nat) : Json → List Char
  | .null => 'n' :: ['u', 'l', 'l']
  | .bool true => 't' :: ['r', 'u', 'e']
  | .bool false => 'f' :: ['a', 'l', 's', 'e']
  | .str s => dumpStr s
  | .arr [] => ['[', ']']
  | .arr (e :: es) =>
      '[' :: '\n' :: (dumpItems (lvl + 1) e es
        ++ '\n' :: (pad lvl ++ [']']))
  | .obj [] => ['\x7b', '\x7d']
  | .obj ((k, v) :: kvs) =>
      '\x7b' :: '\n' :: (dumpFields (lvl + 1) k v kvs
        ++ '\n' :: (pad lvl ++ ['\x7d']))
termination_by j => sizeOf j
decreasing_by all_goals (simp_wf; try omega)

/-- The comma-and-newline separated, indented array elements. -/
def dumpItems (lvl : Nat) (e : Json) : List Json → List Char
  | [] => pad lvl ++ dumpVal lvl e
  | e2 :: es =>
      pad lvl ++ (dumpVal lvl e ++ ',' :: '\n' :: dumpItems lvl e2 es)
termination_by es => 1 + sizeOf e + sizeOf es
decreasing_by all_goals (simp_wf; try omega)

/-- The comma-and-newline separated, indented object members. -/
def dumpFields (lvl : Nat) (k : String) (v : Json) : List (String × Json) → List Char
  | [] => pad lvl ++ (dumpStr k ++ ':' :: ' ' :: dumpVal lvl v)
  | (k2, v2) :: kvs =>
      pad lvl ++ (dumpStr k ++ ':' :: ' ' :: (dumpVal lvl v
        ++ ',' :: '\n' :: dumpFields lvl k2 v2 kvs))
termination_by kvs => 1 + sizeOf v + sizeOf kvs
decreasing_by all_goals (simp_wf; try omega)

end

/-- The file content `json.dumps(state, indent=2)` written by
`save_state` (`state.py` line 23): a top-level value at indentation
level 0, no trailing newline. -/
def dumps (j : Json) : List Char := dumpVal 0 j

/-- JSON insignificant whitespace, as accepted between tokens by
`json.loads`. -/
def isWsChar (c : Char) : Bool :=
  c == ' ' || c == '\n' || c == '\t' || c == '\r'

/-- Drop leading insignificant whitespace. -/
def dropWs : List Char → List Char
  | c :: cs => if isWsChar c then dropWs cs else c :: cs
  | [] => []

/-- Value of one hexadecimal digit character, either case. -/
def hexVal (c : Char) : Option Nat :=
  if 48 ≤ c.toNat ∧ c.toNat ≤ 57 then some (c.toNat - 48)
  else if 97 ≤ c.toNat ∧ c.toNat ≤ 102 then some (c.toNat - 87)
  else if 65 ≤ c.toNat ∧ c.toNat ≤ 70 then some (c.toNat - 55)
  else none

/-- Four hexadecimal digits, most significant first. -/
def hex4 (a b c d : Char) : Option Nat := do
  let va ← hexVal a
  let vb ← hexVal b
  let vc ← hexVal c
  let vd ← hexVal d
  pure (((va * 16 + vb) * 16 + vc) * 16 + vd)

/-- A character from a Unicode scalar value; `none` outside the scalar
range (in particular on lone surrogates, which Lean strings cannot
hold). -/
def scalarChar (n : Nat) : Option Char :=
  if _h : n.isValidChar then some (Char.ofNat n) else none

/-- The one-character string escapes accepted by `json.loads` (its
`BACKSLASH` table, `\uXXXX` aside). -/
def shortEsc : Char → Option Char
  | '"' => some '"'
  | '\\' => some '\\'
  | '/' => some '/'
  | 'b' => some '\x08'
  | 'f' => some '\x0c'
  | 'n' => some '\n'
  | 'r' => some '\r'
  | 't' => some '\t'
  | _ => none

/-- Lookahead after a high surrogate `\uXXXX` of value `hi`: the
scanner demands a low-surrogate escape next and recombines the pair
into one astral character, as CPython's scanner does. -/
def pLowSur (hi : Nat) : List Char → Option (Char × List Char)
  | '\\' :: 'u' :: a :: b :: c :: d :: r =>
      match hex4 a b c d with
      | some l =>
        if 0xdc00 ≤ l ∧ l < 0xe000 then
          match scalarChar (0x10000 + (hi - 0xd800) * 0x400 + (l - 0xdc00)) with
          | some ch => some (ch, r)
          | none => none
        else none
      | none => none
  | _ => none

/-- String-body scanner: the input after the opening quote, consumed up
to the closing quote, decoding escapes.  (Unlike CPython's strict mode
it lets raw control characters through, and it rejects lone surrogates;
neither case occurs in content this program writes.)  `acc` holds
decoded characters in reverse; `fuel` only makes the recursion
structural - every step consumes at least one character, so callers
supply `input length + 1`, which never runs out. -/
def pStrBody : Nat → List Char → List Char → Option (List Char × List Char)
  | 0, _, _ => none
  | f + 1, acc, cs =>
    match cs with
    | '"' :: r => some (acc.reverse, r)
    | '\\' :: 'u' :: a :: b :: c :: d :: r =>
        match hex4 a b c d with
        | none => none
        | some h =>
          if h < 0xd800 ∨ 0xe000 ≤ h then
            match scalarChar h with
            | some ch => pStrBody f (ch :: acc) r
            | none => none
          else if h < 0xdc00 then
            match pLowSur h r with
            | some p => pStrBody f (p.1 :: acc) p.2
            | none => none
          else none
    | '\\' :: e :: r =>
        match shortEsc e with
        | some ch => pStrBody f (ch :: acc) r
        | none => none
    | c :: r => pStrBody f (c :: acc) r
    | [] => none

mutual

/-- Recursive-descent value parser modeling `json.loads` on the
state-file fragment (no numbers).  `fuel` only bounds recursion depth so
the definition is total; `parseJson` supplies enough for anything the
program writes. -/
def pVal : Nat → List Char → Option (Json × List Char)
  | 0, _ => none
  | f + 1, cs =>
    match dropWs cs with
    | 'n' :: 'u' :: 'l' :: 'l' :: r => some (Json.null, r)
    | 't' :: 'r' :: 'u' :: 'e' :: r => some (Json.bool true, r)
    | 'f' :: 'a' :: 'l' :: 's' :: 'e' :: r => some (Json.bool false, r)
    | '"' :: r =>
      match pStrBody (r.length + 1) [] r with
      | some (cs', r') => some (Json.str (String.mk cs'), r')
      | none => none
    | '[' :: r =>
      match dropWs r with
      | [] => none
      | c :: t =>
        if c = ']' then some (Json.arr [], t)
        else
          match pItems f (c :: t) with
          | some (es, r') => some (Json.arr es, r')
          | none => none
    | '\x7b' :: r =>
      match dropWs r with
      | [] => none
      | c :: t =>
        if c = '\x7d' then some (Json.obj [], t)
        else
          match pFields f (c :: t) with
          | some (ms, r') => some (Json.obj ms, r')
          | none => none
    | _ => none

/-- One or more comma-separated array elements, then `]`. -/
def pItems : Nat → List Char → Option (List Json × List Char)
  | 0, _ => none
  | f + 1, cs =>
    match pVal f cs with
    | none => none
    | some (v, r) =>
      match dropWs r with
      | ',' :: r' =>
        match pItems f r' with
        | some (vs, r'') => some (v :: vs, r'')
        | none => none
      | ']' :: r' => some ([v], r')
      | _ => none

/-- One or more comma-separated `"key": value` members, then `}`. -/
def pFields : Nat → List Char → Option (List (String × Json) × List Char)
  | 0, _ => none
  | f + 1, cs =>
    match dropWs cs with
    | '"' :: r =>
      match pStrBody (r.length + 1) [] r with
      | none => none
      | some (kcs, r1) =>
        match dropWs r1 with
        | ':' :: r2 =>
          match pVal f r2 with
          | none => none
          | some (v, r3) =>
            match dropWs r3 with
            | ',' :: r4 =>
              match pFields f r4 with
              | some (ms, r5) => some ((String.mk kcs, v) :: ms, r5)
              | none => none
            | '\x7d' :: r4 => some ([(String.mk kcs, v)], r4)
            | _ => none
        | _ => none
    | _ => none

end

/-- Parse a complete document, rejecting anything but trailing
whitespace after the value, as `json.loads` does.  `none` models
`json.JSONDecodeError`. -/
def parseJson (cs : List Char) : Option Json :=
  match pVal (cs.length + 1) cs with
  | some (j, r) => if dropWs r = [] then some j else none
  | none => none

/-! ## Persistent state store (`src/tui/utils/state.py`)

The store is the single file `STATE_FILE`; we carry its content (absent
or a character list) plus a count of writes, so that "the file is not
rewritten" is visible in the model.  Operations that CPython would abort
with an exception (calling `.get` on a non-dict, list operations on a
value outside the modeled fragment) return `none`. -/

/-- Durable storage: `STATE_FILE`'s content if the file exists, and how
many times `save_state` has written it. -/
structure Store where
  file : Option (List Char)
  writes : Nat

/-- The state `load_state` substitutes for an absent or unparsable file
(`state.py` lines 16-17): the dict literal `\x7b"installed": []\x7d`. -/
def emptyState : Json := Json.obj [("installed", Json.arr [])]

/-- Python `load_state` (`state.py` lines 10-17): parse the file if it
exists, fall back to the empty state on absence or `JSONDecodeError`. -/
def load_state (st : Store) : Json :=
  match st.file with
  | some content =>
    match parseJson content with
    | some j => j
    | none => emptyState
  | none => emptyState

/-- Python `save_state` (`state.py` lines 20-23):
`STATE_FILE.write_text(json.dumps(state, indent=2))`.  (The
`mkdir(parents=True, exist_ok=True)` of the parent directory has no
observable effect on the file content.) -/
def save_state (st : Store) (state : Json) : Store :=
  { file := some (dumps state), writes := st.writes + 1 }

/-- Association lookup in an object's fields: Python `dict` lookup
(keys are unique in any dict-built object, so first match is the
match). -/
def jlookup : List (String × Json) → String → Option Json
  | [], _ => none
  | (k, v) :: kvs, key => if k = key then some v else jlookup kvs key

/-- Python dict update `d[key] = v` on insertion-ordered fields: replace
the value in place if the key is present, else append the new pair at
the end (what `setdefault` followed by in-place mutation amounts to). -/
def setKey : List (String × Json) → String → Json → List (String × Json)
  | [], key, v => [(key, v)]
  | (k, w) :: kvs, key, v =>
      if k = key then (k, v) :: kvs else (k, w) :: setKey kvs key v

/-- Python `option_id in xs` over a JSON array: `==` between a `str` and
a non-`str` value is `False`, so only string elements can match. -/
def memStr (oid : String) : List Json → Bool
  | [] => false
  | Json.str s :: t => s == oid || memStr oid t
  | _ :: t => memStr oid t

/-- Python `xs.remove(option_id)`: drop the first element equal to the
string (call sites guard with `in`, so the `ValueError` path is dead). -/
def removeStr (oid : String) : List Json → List Json
  | [] => []
  | Json.str s :: t => if s == oid then t else Json.str s :: removeStr oid t
  | x :: t => x :: removeStr oid t

/-- Hashability of a JSON value, as Python's `set()` constructor needs:
lists and dicts are unhashable (`TypeError`). -/
def jhashable : Json → Bool
  | Json.arr _ => false
  | Json.obj _ => false
  | _ => true

/-- Python `mark_installed` (`state.py` lines 26-31): load, and only if
the id is not already listed, append it (`setdefault("installed",
[]).append(option_id)`) and save.  `none` models the exceptions CPython
would raise on a state outside the fragment (non-dict state, non-list
`installed` value). -/
def mark_installed (st : Store) (oid : String) : Option Store :=
  match load_state st with
  | Json.obj kvs =>
    match (jlookup kvs "installed").getD (Json.arr []) with
    | Json.arr xs =>
        if memStr oid xs then some st
        else some (save_state st
          (Json.obj (setKey kvs "installed" (Json.arr (xs ++ [Json.str oid])))))
    | _ => none
  | _ => none

/-- Python `mark_uninstalled` (`state.py` lines 34-39): load, and only
if the id is listed, remove its first occurrence and save. -/
def mark_uninstalled (st : Store) (oid : String) : Option Store :=
  match load_state st with
  | Json.obj kvs =>
    match (jlookup kvs "installed").getD (Json.arr []) with
    | Json.arr xs =>
        if memStr oid xs then
          some (save_state st
            (Json.obj (setKey kvs "installed" (Json.arr (removeStr oid xs)))))
        else some st
    | _ => none
  | _ => none

/-- Python `get_installed` (`state.py` lines 42-44):
`set(load_state().get("installed", []))`.  We return the underlying
element list (the set's members are exactly its elements); `none` models
the `AttributeError` on a non-dict state and the `TypeError` from
`set()` on unhashable elements.  (A string-valued `installed`, which
`set()` would split into characters, lies outside the modeled
fragment.) -/
def get_installed (st : Store) : Option (List Json) :=
  match load_state st with
  | Json.obj kvs =>
    match (jlookup kvs "installed").getD (Json.arr []) with
    | Json.arr xs => if xs.all jhashable then some xs else none
    | _ => none
  | _ => none

/-! ## Process runner (`src/tui/utils/installer.py`) -/

/-- Python `build_command` (`installer.py` lines 104-114), the pure
command constructor used for the `$ ...` preview line: start from the
executable path, append the `uninstall` keyword in uninstall mode, then
extend with the option ids in caller order. -/
def build_command (script_dir : String) (options : List String)
    (uninstall : Bool) : List String :=
  let cmd := [script_dir ++ "/install"]
  let cmd := if uninstall then cmd ++ ["uninstall"] else cmd
  cmd ++ options

/-- The argv list `run_installation` itself builds (`installer.py` lines
77-80) and hands to `asyncio.create_subprocess_exec(*cmd, ...)` (lines
83-88): the list the child process is actually spawned with. -/
def run_installation_argv (script_dir : String) (options : List String)
    (uninstall : Bool) : List String :=
  let cmd := [script_dir ++ "/install"]
  let cmd := if uninstall then cmd ++ ["uninstall"] else cmd
  cmd ++ options

/-! ## Option catalog (`src/tui/data/options.py`), consumed read-only -/

/-- One catalog entry (`InstallOption` dataclass, `options.py` lines
8-16). -/
structure InstallOption where
  id : String
  name : String
  description : String
  category : String
  requires_reboot : Bool := false
  excluded_from_all : Bool := false
  aliases : List String := []

/-- The static catalog `OPTIONS` (`options.py` lines 20-110). -/
def OPTIONS : List InstallOption := [
  { id := "claude", name := "Claude Code",
    description := "Anthropic's AI coding assistant CLI", category := "AI Tools" },
  { id := "codex", name := "Codex CLI",
    description := "OpenAI's Codex command-line interface", category := "AI Tools" },
  { id := "screensaver", name := "Custom Screensaver",
    description := "Personalized ASCII art screensaver", category := "Customization" },
  { id := "plymouth", name := "Plymouth Theme",
    description := "Cybex boot splash theme", category := "System",
    requires_reboot := true },
  { id := "fish", name := "Fish Shell",
    description := "Modern shell with Starship prompt", category := "Shell" },
  { id := "hyprland", name := "Hyprland Bindings",
    description := "Custom key bindings and input config", category := "Desktop",
    aliases := ["hyprland-bindings"] },
  { id := "waycorner", name := "Hot Corners",
    description := "macOS-style hot corners for Hyprland", category := "Desktop" },
  { id := "waybar", name := "Waybar Idle Toggle",
    description := "Click to toggle idle lock indicator", category := "Desktop" },
  { id := "ssh", name := "SSH Key",
    description := "Generate SSH key for GitHub", category := "Security",
    aliases := ["ssh-key"] },
  { id := "passwordless-sudo", name := "Passwordless Sudo",
    description := "Enable passwordless sudo for user", category := "Security",
    excluded_from_all := true },
  { id := "brave", name := "Brave Browser",
    description := "Privacy-focused browser as default", category := "Applications" },
  { id := "mainline", name := "Mainline Kernel",
    description := "Latest mainline Linux kernel", category := "System",
    requires_reboot := true, excluded_from_all := true },
  { id := "noctalia", name := "Noctalia Shell",
    description := "Modern desktop shell (replaces Waybar)", category := "Desktop",
    aliases := ["noctalia-shell"] },
  { id := "looknfeel", name := "Animations",
    description := "Improved Hyprland window animations", category := "Customization" }]

/-! ## Option list widget (`src/tui/widgets/option_list.py`)

`OptionItem`'s reactive fields and `OptionList._options_map` (an
insertion-ordered dict of id to item) carry all the state the claims
touch; rendering (`compose`, `watch_*`, CSS classes) is the cosmetic
layer and is not modeled.  Posting a `Selected` message is modeled by
returning it. -/

/-- The state of one `OptionItem` row: the reactive `selected` and
`status` fields (`option_list.py` lines 22-23; `status` ranges over
`"pending"`, `"installing"`, `"installed"`, `"failed"`) and the
`_is_installed` flag (line 28). -/
structure OptionItem where
  option : InstallOption
  selected : Bool
  status : String
  is_installed : Bool

/-- An `OptionItem.Selected` message (`option_list.py` lines 15-20). -/
structure SelectedMsg where
  option_id : String
  selected : Bool

/-- `OptionItem.toggle_selection` (lines 82-85): flip `selected` and
post one `Selected` message carrying the new value. -/
def toggle_selection (it : OptionItem) : OptionItem × SelectedMsg :=
  let it2 := { it with selected := !it.selected }
  (it2, { option_id := it.option.id, selected := it2.selected })

/-- `OptionItem.set_installed` (lines 87-93): record `_is_installed` and
set `status` to `"installed"` or back to `"pending"`. -/
def set_installed (it : OptionItem) (installed : Bool) : OptionItem :=
  { it with is_installed := installed,
            status := if installed then "installed" else "pending" }

/-- `OptionList._options_map`: insertion-ordered id-to-item entries. -/
abbrev OptionsMap := List (String × OptionItem)

/-- `OptionList.compose` (lines 104-110): one item per catalog option,
in catalog order, `_is_installed` iff the id is in the loaded installed
set. -/
def composeOptions (installed : List String) : OptionsMap :=
  OPTIONS.map (fun o =>
    (o.id, { option := o, selected := false, status := "pending",
             is_installed := installed.contains o.id }))

/-- `OptionList.get_selected_options` (lines 112-117): ids of the
currently selected items, in map order. -/
def get_selected_options (m : OptionsMap) : List String :=
  (m.filter (fun e => e.2.selected)).map (fun e => e.1)

/-- `OptionList.select_all` (lines 119-125): walk the map; skip items
excluded from bulk selection when `exclude_special`, toggle the ones not
yet selected (collecting their `Selected` messages), leave selected ones
untouched. -/
def select_all (m : OptionsMap) (exclude_special : Bool) :
    OptionsMap × List SelectedMsg :=
  match m with
  | [] => ([], [])
  | (k, it) :: t =>
    let (t', msgs) := select_all t exclude_special
    if exclude_special && it.option.excluded_from_all then ((k, it) :: t', msgs)
    else if !it.selected then
      let (it2, msg) := toggle_selection it
      ((k, it2) :: t', msg :: msgs)
    else ((k, it) :: t', msgs)

/-- `OptionList.deselect_all` (lines 127-131): toggle every selected
item off, collecting the messages. -/
def deselect_all (m : OptionsMap) : OptionsMap × List SelectedMsg :=
  match m with
  | [] => ([], [])
  | (k, it) :: t =>
    let (t', msgs) := deselect_all t
    if it.selected then
      let (it2, msg) := toggle_selection it
      ((k, it2) :: t', msg :: msgs)
    else ((k, it) :: t', msgs)

/-- `OptionList.set_option_status` (lines 133-136).  Present in the
widget's interface; no screen in the repository ever calls it. -/
def set_option_status (m : OptionsMap) (oid status : String) : OptionsMap :=
  m.map (fun e => (e.1, if e.1 = oid then { e.2 with status := status } else e.2))

/-- `OptionList.mark_option_installed` (lines 138-142): if the id is
known, `set_installed(True)` and clear the `selected` flag. -/
def mark_option_installed (m : OptionsMap) (oid : String) : OptionsMap :=
  m.map (fun e =>
    (e.1, if e.1 = oid then { set_installed e.2 true with selected := false }
          else e.2))

/-- `OptionList.mark_option_uninstalled` (lines 144-147): if the id is
known, `set_installed(False)` (the `selected` flag is left alone). -/
def mark_option_uninstalled (m : OptionsMap) (oid : String) : OptionsMap :=
  m.map (fun e => (e.1, if e.1 = oid then set_installed e.2 false else e.2))

/-- Lookup of `self._options_map[option_id]`: the item stored under an
id (dict lookup; catalog ids are unique). -/
def lookupOpt : OptionsMap → String → Option OptionItem
  | [], _ => none
  | (k, it) :: t, oid => if k = oid then some it else lookupOpt t oid

/-- `MainScreen.action_toggle` (`main_screen.py` lines 51-57) applied
with the given id highlighted: toggle that one item.  (Used to build
concrete prior selection states.) -/
def toggle_option (m : OptionsMap) (oid : String) : OptionsMap :=
  m.map (fun e => (e.1, if e.1 = oid then (toggle_selection e.2).1 else e.2))

/-! ## Screen controller (`src/tui/screens/main_screen.py`) -/

/-- The body of `action_install`'s success loop (`main_screen.py` lines
86-88): for each requested id in order, `mark_installed(opt_id)` on the
store, then `option_list.mark_option_installed(opt_id)`. -/
def installLoop (st : Store) (m : OptionsMap) :
    List String → Option (Store × OptionsMap)
  | [] => some (st, m)
  | oid :: rest =>
    match mark_installed st oid with
    | some st2 => installLoop st2 (mark_option_installed m oid) rest
    | none => none

/-- The `on_complete` callback of `action_install` (`main_screen.py`
lines 83-91): on `success` run the marking loop over the requested ids;
otherwise only the status-bar text changes - store and option list are
left untouched. -/
def on_complete_install (st : Store) (m : OptionsMap)
    (selected : List String) (success : Bool) : Option (Store × OptionsMap) :=
  if success then installLoop st m selected
  else some (st, m)

/-! ## Execution controller modal (`src/tui/screens/install_modal.py`) -/

/-- The modal's run-outcome flags: `self.success`, `self.completed`
(`install_modal.py` lines 172-173) and the Close button's `disabled`
state (line 188). -/
structure ModalState where
  success : Bool
  completed : Bool
  closeDisabled : Bool

/-- The modal as mounted: not completed, not successful, Close button
disabled (`install_modal.py` lines 172-173 and 188). -/
def initModal : ModalState := { success := false, completed := false,
                                closeDisabled := true }

/-- The events the mounted modal reacts to: the awaited
`run_installation` returning an exit code (lines 216-229), the
exception branch (lines 231-234), the Close button (line 250) and the
escape binding (line 255). -/
inductive ModalEv where
  | taskDone (code : Int) : ModalEv
  | taskErr : ModalEv
  | pressClose : ModalEv
  | pressEscape : ModalEv

/-- One step of the modal: the state update plus the value passed to
`self.dismiss`, if any.  `taskDone code` sets `success = (code == 0)`,
`completed = True` and enables Close (lines 223-224, 237); the
exception branch likewise with `success = False` (lines 232-233);
`pressClose` dismisses with `self.success` (a disabled Textual button
emits no `Pressed` event, hence the guard); `pressEscape` is
`action_cancel` (lines 255-259): dismiss only once completed, else
ignored. -/
def modalStep (s : ModalState) : ModalEv → ModalState × Option Bool
  | ModalEv.taskDone code =>
      ({ success := code == 0, completed := true, closeDisabled := false }, none)
  | ModalEv.taskErr =>
      ({ success := false, completed := true, closeDisabled := false }, none)
  | ModalEv.pressClose =>
      if s.closeDisabled then (s, none) else (s, some s.success)
  | ModalEv.pressEscape =>
      if s.completed then (s, some s.success) else (s, none)

/-- Run a sequence of events from a state, collecting every dismissal
value emitted along the way. -/
def modalDismissals (s : ModalState) : List ModalEv → List Bool
  | [] => []
  | e :: es =>
    match modalStep s e with
    | (s2, some b) => b :: modalDismissals s2 es
    | (s2, none) => modalDismissals s2 es

/-- Whether an event completes the run (reaches `Succeeded`/`Failed`). -/
def isTerminalEv : ModalEv → Bool
  | ModalEv.taskDone _ => true
  | ModalEv.taskErr => true
  | _ => false

/-- The success flag the modal derives from the process exit code
(`install_modal.py` line 223: `self.success = exit_code == 0`), which
dismissal hands to `on_complete`. -/
def modal_success (exit_code : Int) : Bool := exit_code == 0

/-! ## Round trip of the JSON codec

`parseJson (dumps v) = some v`: what `save_state` writes, `load_state`
reads back unchanged.  Proved per layer: hex digits, one escaped
character, string bodies, then the three mutual parsers by induction on
fuel. -/

theorem toNat_isValidChar (c : Char) : c.toNat.isValidChar := c.valid

theorem scalarChar_toNat (c : Char) : scalarChar c.toNat = some c := by
  unfold scalarChar
  rw [dif_pos (toNat_isValidChar c), Char.ofNat_toNat]

theorem hexVal_hexDig (d : Nat) (h : d < 16) : hexVal (hexDig d) = some d := by
  interval_cases d <;> decide

theorem hex4_uEsc (n : Nat) (h : n < 0x10000) :
    hex4 (hexDig (n / 4096 % 16)) (hexDig (n / 256 % 16))
      (hexDig (n / 16 % 16)) (hexDig (n % 16)) = some n := by
  unfold hex4
  rw [hexVal_hexDig _ (Nat.mod_lt _ (by omega)),
      hexVal_hexDig _ (Nat.mod_lt _ (by omega)),
      hexVal_hexDig _ (Nat.mod_lt _ (by omega)),
      hexVal_hexDig _ (Nat.mod_lt _ (by omega))]
  show some _ = some n
  congr 1
  omega


theorem pStrBody_quote (f : Nat) (acc r : List Char) :
    pStrBody (f + 1) acc ('"' :: r) = some (acc.reverse, r) := rfl

theorem pStrBody_short (f : Nat) (acc : List Char) (e : Char) (r : List Char)
    (hne : e ≠ 'u') (ch : Char) (hch : shortEsc e = some ch) :
    pStrBody (f + 1) acc ('\\' :: e :: r) = pStrBody f (ch :: acc) r := by
  rw [pStrBody.eq_def]
  simp [hne, hch]

theorem pStrBody_lit (f : Nat) (acc : List Char) (c : Char) (r : List Char)
    (h1 : c ≠ '"') (h2 : c ≠ '\\') :
    pStrBody (f + 1) acc (c :: r) = pStrBody f (c :: acc) r := by
  rw [pStrBody.eq_def]
  simp [h1, h2]

theorem pStrBody_hexarm (f : Nat) (acc : List Char) (a b c d : Char)
    (r : List Char) (n : Nat) (hhex : hex4 a b c d = some n)
    (hsur : n < 0xd800 ∨ 0xe000 ≤ n) (ch : Char) (hch : scalarChar n = some ch) :
    pStrBody (f + 1) acc ('\\' :: 'u' :: a :: b :: c :: d :: r) =
      pStrBody f (ch :: acc) r := by
  rw [pStrBody.eq_def]
  simp only [hhex, if_pos hsur, hch]

theorem pStrBody_pairarm (f : Nat) (acc : List Char) (a b c d : Char)
    (r : List Char) (n : Nat) (hhex : hex4 a b c d = some n)
    (h1 : 0xd800 ≤ n) (h2 : n < 0xdc00) (ch : Char) (r2 : List Char)
    (hlo : pLowSur n r = some (ch, r2)) :
    pStrBody (f + 1) acc ('\\' :: 'u' :: a :: b :: c :: d :: r) =
      pStrBody f (ch :: acc) r2 := by
  rw [pStrBody.eq_def]
  simp only [hhex, hlo]
  rw [if_neg (by omega), if_pos (by omega)]

theorem pLowSur_eval (hi : Nat) (a b c d : Char) (r : List Char) (n : Nat)
    (hhex : hex4 a b c d = some n) (hr : 0xdc00 ≤ n ∧ n < 0xe000) (ch : Char)
    (hch : scalarChar (0x10000 + (hi - 0xd800) * 0x400 + (n - 0xdc00)) = some ch) :
    pLowSur hi ('\\' :: 'u' :: a :: b :: c :: d :: r) = some (ch, r) := by
  unfold pLowSur
  simp only [hhex, if_pos hr, hch]

theorem escChar_step (c : Char) (f : Nat) (acc rest : List Char) :
    pStrBody (f + 1) acc (escChar c ++ rest) = pStrBody f (c :: acc) rest := by
  by_cases h1 : c = '"'
  · subst h1
    rw [show escChar '"' = ['\\', '"'] from rfl]
    exact pStrBody_short f acc '"' rest (by decide) '"' rfl
  by_cases h2 : c = '\\'
  · subst h2
    rw [show escChar '\\' = ['\\', '\\'] from rfl]
    exact pStrBody_short f acc '\\' rest (by decide) '\\' rfl
  by_cases h3 : c = '\x08'
  · subst h3
    rw [show escChar '\x08' = ['\\', 'b'] from rfl]
    exact pStrBody_short f acc 'b' rest (by decide) '\x08' rfl
  by_cases h4 : c = '\x0c'
  · subst h4
    rw [show escChar '\x0c' = ['\\', 'f'] from rfl]
    exact pStrBody_short f acc 'f' rest (by decide) '\x0c' rfl
  by_cases h5 : c = '\n'
  · subst h5
    rw [show escChar '\n' = ['\\', 'n'] from rfl]
    exact pStrBody_short f acc 'n' rest (by decide) '\n' rfl
  by_cases h6 : c = '\r'
  · subst h6
    rw [show escChar '\r' = ['\\', 'r'] from rfl]
    exact pStrBody_short f acc 'r' rest (by decide) '\r' rfl
  by_cases h7 : c = '\t'
  · subst h7
    rw [show escChar '\t' = ['\\', 't'] from rfl]
    exact pStrBody_short f acc 't' rest (by decide) '\t' rfl
  have hcv := toNat_isValidChar c
  by_cases h8 : c.toNat < 0x20
  · have hesc : escChar c = uEsc c.toNat := by
      unfold escChar
      rw [if_neg h1, if_neg h2, if_neg h3, if_neg h4, if_neg h5, if_neg h6,
          if_neg h7, if_pos h8]
    rw [hesc]
    show pStrBody (f + 1) acc ('\\' :: 'u' :: _ :: _ :: _ :: _ :: rest) = _
    exact pStrBody_hexarm f acc _ _ _ _ rest c.toNat
      (hex4_uEsc c.toNat (by omega)) (by omega) c (scalarChar_toNat c)
  by_cases h9 : c.toNat < 0x7f
  · have hesc : escChar c = [c] := by
      unfold escChar
      rw [if_neg h1, if_neg h2, if_neg h3, if_neg h4, if_neg h5, if_neg h6,
          if_neg h7, if_neg h8, if_pos h9]
    rw [hesc]
    exact pStrBody_lit f acc c rest h1 h2
  by_cases h10 : c.toNat < 0x10000
  · have hesc : escChar c = uEsc c.toNat := by
      unfold escChar
      rw [if_neg h1, if_neg h2, if_neg h3, if_neg h4, if_neg h5, if_neg h6,
          if_neg h7, if_neg h8, if_neg h9, if_pos h10]
    rw [hesc]
    have hsur : c.toNat < 0xd800 ∨ 0xe000 ≤ c.toNat := by
      rcases hcv with h | h
      · exact Or.inl h
      · exact Or.inr (by omega)
    show pStrBody (f + 1) acc ('\\' :: 'u' :: _ :: _ :: _ :: _ :: rest) = _
    exact pStrBody_hexarm f acc _ _ _ _ rest c.toNat
      (hex4_uEsc c.toNat h10) hsur c (scalarChar_toNat c)
  · have hesc : escChar c = uEsc (0xd800 + (c.toNat - 0x10000) / 0x400)
        ++ uEsc (0xdc00 + (c.toNat - 0x10000) % 0x400) := by
      unfold escChar
      rw [if_neg h1, if_neg h2, if_neg h3, if_neg h4, if_neg h5, if_neg h6,
          if_neg h7, if_neg h8, if_neg h9, if_neg h10]
    have hub : c.toNat < 0x110000 := by
      rcases hcv with h | h
      · omega
      · exact h.2
    have hdiv : (c.toNat - 0x10000) / 0x400 < 0x400 := by omega
    rw [hesc, List.append_assoc]
    show pStrBody (f + 1) acc ('\\' :: 'u' :: _ :: _ :: _ :: _
      :: (uEsc (0xdc00 + (c.toNat - 0x10000) % 0x400) ++ rest)) = _
    refine pStrBody_pairarm f acc _ _ _ _ _ (0xd800 + (c.toNat - 0x10000) / 0x400)
      (hex4_uEsc _ (by omega)) (by omega) (by omega) c rest ?_
    show pLowSur _ ('\\' :: 'u' :: _ :: _ :: _ :: _ :: rest) = _
    refine pLowSur_eval _ _ _ _ _ rest (0xdc00 + (c.toNat - 0x10000) % 0x400)
      (hex4_uEsc _ (by omega)) (by constructor <;> omega) c ?_
    have harg : 0x10000 + (0xd800 + (c.toNat - 0x10000) / 0x400 - 0xd800) * 0x400
        + (0xdc00 + (c.toNat - 0x10000) % 0x400 - 0xdc00) = c.toNat := by omega
    rw [harg]
    exact scalarChar_toNat c

theorem pStrBody_flat (cs : List Char) : ∀ (f : Nat) (acc rest : List Char),
    cs.length < f →
    pStrBody f acc (cs.flatMap escChar ++ '"' :: rest)
      = some (acc.reverse ++ cs, rest) := by
  induction cs with
  | nil =>
    intro f acc rest hf
    match f, hf with
    | f + 1, _ => simp [pStrBody_quote]
  | cons c cs ih =>
    intro f acc rest hf
    match f, hf with
    | f + 1, hf =>
      rw [List.flatMap_cons, List.append_assoc, escChar_step,
          ih f (c :: acc) rest (by simp at hf; omega)]
      simp

theorem parse_dumpStr (s : String) (f : Nat) (rest : List Char)
    (hf : s.toList.length < f) :
    pStrBody f [] (s.toList.flatMap escChar ++ '"' :: rest)
      = some (s.toList, rest) := by
  rw [pStrBody_flat _ f [] rest hf]
  simp

theorem escChar_len1 (c : Char) : 1 ≤ (escChar c).length := by
  unfold escChar
  repeat' split
  all_goals simp [uEsc]

theorem len_le_flat (cs : List Char) : cs.length ≤ (cs.flatMap escChar).length := by
  induction cs with
  | nil => simp
  | cons c cs ih =>
    have := escChar_len1 c
    simp only [List.flatMap_cons, List.length_append, List.length_cons]
    omega

theorem dropWs_nws (c : Char) (h : isWsChar c = false) (cs : List Char) :
    dropWs (c :: cs) = c :: cs := by
  rw [dropWs, h]; rfl

theorem dropWs_ws (c : Char) (h : isWsChar c = true) (cs : List Char) :
    dropWs (c :: cs) = dropWs cs := by
  rw [dropWs, h]; rfl

theorem dropWs_spaces (n : Nat) (cs : List Char) :
    dropWs (List.replicate n ' ' ++ cs) = dropWs cs := by
  induction n with
  | zero => rfl
  | succ n ih => rw [List.replicate_succ, List.cons_append, dropWs_ws _ (by decide), ih]

theorem dropWs_pad (l : Nat) (cs : List Char) :
    dropWs (pad l ++ cs) = dropWs cs := dropWs_spaces (2 * l) cs

theorem dropWs_nl (cs : List Char) : dropWs ('\n' :: cs) = dropWs cs :=
  dropWs_ws '\n' (by decide) cs

theorem pVal_congr (f : Nat) (cs cs' : List Char) (h : dropWs cs = dropWs cs') :
    pVal f cs = pVal f cs' := by
  cases f with
  | zero => rfl
  | succ f =>
    rw [pVal.eq_def, pVal.eq_def]
    simp only []
    rw [h]

theorem pItems_congr (f : Nat) (cs cs' : List Char) (h : dropWs cs = dropWs cs') :
    pItems f cs = pItems f cs' := by
  cases f with
  | zero => rfl
  | succ f =>
    rw [pItems.eq_def, pItems.eq_def]
    simp only []
    rw [pVal_congr f cs cs' h]

theorem pFields_congr (f : Nat) (cs cs' : List Char) (h : dropWs cs = dropWs cs') :
    pFields f cs = pFields f cs' := by
  cases f with
  | zero => rfl
  | succ f =>
    rw [pFields.eq_def, pFields.eq_def]
    simp only []
    rw [h]

theorem pVal_null (f : Nat) (r : List Char) :
    pVal (f + 1) ('n' :: 'u' :: 'l' :: 'l' :: r) = some (Json.null, r) := by
  rw [pVal.eq_def]; rfl

theorem pVal_true (f : Nat) (r : List Char) :
    pVal (f + 1) ('t' :: 'r' :: 'u' :: 'e' :: r) = some (Json.bool true, r) := by
  rw [pVal.eq_def]; rfl

theorem pVal_false (f : Nat) (r : List Char) :
    pVal (f + 1) ('f' :: 'a' :: 'l' :: 's' :: 'e' :: r) = some (Json.bool false, r) := by
  rw [pVal.eq_def]; rfl

theorem pVal_str (f : Nat) (r r' cs' : List Char)
    (h : pStrBody (r.length + 1) [] r = some (cs', r')) :
    pVal (f + 1) ('"' :: r) = some (Json.str (String.mk cs'), r') := by
  rw [pVal.eq_def]
  simp only []
  rw [dropWs_nws _ (by decide)]
  simp only [h]

theorem pVal_arrNil (f : Nat) (r r' : List Char) (h : dropWs r = ']' :: r') :
    pVal (f + 1) ('[' :: r) = some (Json.arr [], r') := by
  rw [pVal.eq_def]
  simp only []
  rw [dropWs_nws _ (by decide)]
  simp only [h]
  rfl

theorem pVal_arrCons (f : Nat) (r t r' : List Char) (c : Char) (es : List Json)
    (hd : dropWs r = c :: t) (hc : ¬c = ']')
    (h : pItems f (c :: t) = some (es, r')) :
    pVal (f + 1) ('[' :: r) = some (Json.arr es, r') := by
  rw [pVal.eq_def]
  simp only []
  rw [dropWs_nws _ (by decide)]
  simp only [hd, if_neg hc, h]

theorem pVal_objNil (f : Nat) (r r' : List Char) (h : dropWs r = '\x7d' :: r') :
    pVal (f + 1) ('\x7b' :: r) = some (Json.obj [], r') := by
  rw [pVal.eq_def]
  simp only []
  rw [dropWs_nws _ (by decide)]
  simp only [h]
  rfl

theorem pVal_objCons (f : Nat) (r t r' : List Char) (c : Char)
    (ms : List (String × Json)) (hd : dropWs r = c :: t) (hc : ¬c = '\x7d')
    (h : pFields f (c :: t) = some (ms, r')) :
    pVal (f + 1) ('\x7b' :: r) = some (Json.obj ms, r') := by
  rw [pVal.eq_def]
  simp only []
  rw [dropWs_nws _ (by decide)]
  simp only [hd, if_neg hc, h]

theorem pItems_last (f : Nat) (cs r r2 : List Char) (v : Json)
    (h : pVal f cs = some (v, r)) (hd : dropWs r = ']' :: r2) :
    pItems (f + 1) cs = some ([v], r2) := by
  rw [pItems.eq_def]
  simp only [h, hd]

theorem pItems_more (f : Nat) (cs r r2 r3 : List Char) (v : Json) (vs : List Json)
    (h : pVal f cs = some (v, r)) (hd : dropWs r = ',' :: r2)
    (h2 : pItems f r2 = some (vs, r3)) :
    pItems (f + 1) cs = some (v :: vs, r3) := by
  rw [pItems.eq_def]
  simp only [h, hd, h2]

theorem pFields_last (f : Nat) (cs r r1 r2 r3 r4 kcs : List Char) (v : Json)
    (hws : dropWs cs = '"' :: r)
    (hk : pStrBody (r.length + 1) [] r = some (kcs, r1))
    (hc : dropWs r1 = ':' :: r2) (hv : pVal f r2 = some (v, r3))
    (he : dropWs r3 = '\x7d' :: r4) :
    pFields (f + 1) cs = some ([(String.mk kcs, v)], r4) := by
  rw [pFields.eq_def]
  simp only [hws, hk, hc, hv, he]

theorem pFields_more (f : Nat) (cs r r1 r2 r3 r4 r5 kcs : List Char) (v : Json)
    (ms : List (String × Json)) (hws : dropWs cs = '"' :: r)
    (hk : pStrBody (r.length + 1) [] r = some (kcs, r1))
    (hc : dropWs r1 = ':' :: r2) (hv : pVal f r2 = some (v, r3))
    (he : dropWs r3 = ',' :: r4) (h2 : pFields f r4 = some (ms, r5)) :
    pFields (f + 1) cs = some ((String.mk kcs, v) :: ms, r5) := by
  rw [pFields.eq_def]
  simp only [hws, hk, hc, hv, he, h2]

theorem dumpVal_head (lvl : Nat) (j : Json) :
    ∃ c t, dumpVal lvl j = c :: t ∧ isWsChar c = false ∧ ¬c = ']' ∧ ¬c = '\x7d' := by
  cases j with
  | null => exact ⟨'n', _, by rw [dumpVal], by decide, by decide, by decide⟩
  | bool b =>
    cases b with
    | true => exact ⟨'t', _, by rw [dumpVal], by decide, by decide, by decide⟩
    | false => exact ⟨'f', _, by rw [dumpVal], by decide, by decide, by decide⟩
  | str s => exact ⟨'"', _, by rw [dumpVal, dumpStr], by decide, by decide, by decide⟩
  | arr es =>
    cases es with
    | nil => exact ⟨'[', _, by rw [dumpVal], by decide, by decide, by decide⟩
    | cons e es => exact ⟨'[', _, by rw [dumpVal], by decide, by decide, by decide⟩
  | obj ms =>
    cases ms with
    | nil => exact ⟨'\x7b', _, by rw [dumpVal], by decide, by decide, by decide⟩
    | cons kv ms =>
      obtain ⟨k, v⟩ := kv
      exact ⟨'\x7b', _, by rw [dumpVal], by decide, by decide, by decide⟩

theorem dropWs_dumpVal (lvl : Nat) (j : Json) (X : List Char) :
    dropWs (dumpVal lvl j ++ X) = dumpVal lvl j ++ X := by
  obtain ⟨c, t, he, hws, _, _⟩ := dumpVal_head lvl j
  rw [he, List.cons_append, dropWs_nws _ hws, ← List.cons_append, ← he]

theorem dumpItems_decomp (lvl : Nat) (e : Json) (es : List Json) :
    ∃ sep : List Char, dumpItems lvl e es = pad lvl ++ (dumpVal lvl e ++ sep) := by
  cases es with
  | nil => exact ⟨[], by rw [dumpItems]; simp⟩
  | cons e2 es2 => exact ⟨',' :: '\n' :: dumpItems lvl e2 es2, by rw [dumpItems]⟩

theorem dumpFields_decomp (lvl : Nat) (k : String) (v : Json)
    (kvs : List (String × Json)) :
    ∃ sep : List Char, dumpFields lvl k v kvs
      = pad lvl ++ (dumpStr k ++ ':' :: ' ' :: (dumpVal lvl v ++ sep)) := by
  cases kvs with
  | nil => exact ⟨[], by rw [dumpFields]; simp⟩
  | cons kv2 kvs2 =>
    obtain ⟨k2, v2⟩ := kv2
    exact ⟨',' :: '\n' :: dumpFields lvl k2 v2 kvs2, by rw [dumpFields]⟩

theorem len_dumpVal_ge2 (lvl : Nat) (j : Json) : 2 ≤ (dumpVal lvl j).length := by
  cases j with
  | null => rw [dumpVal]; decide
  | bool b => cases b <;> (rw [dumpVal]; decide)
  | str s => rw [dumpVal, dumpStr]; simp
  | arr es =>
    cases es with
    | nil => rw [dumpVal]; decide
    | cons e es => rw [dumpVal]; simp
  | obj ms =>
    cases ms with
    | nil => rw [dumpVal]; decide
    | cons kv ms =>
      obtain ⟨k, v⟩ := kv
      rw [dumpVal]; simp
theorem rt_main (f : Nat) :
    (∀ (lvl : Nat) (j : Json) (rest : List Char),
        (dumpVal lvl j).length < f →
        pVal f (dumpVal lvl j ++ rest) = some (j, rest))
  ∧ (∀ (lvl l0 : Nat) (e : Json) (es : List Json) (rest : List Char),
        (dumpItems lvl e es).length + 2 ≤ f →
        pItems f (dumpItems lvl e es ++ '\n' :: (pad l0 ++ ']' :: rest))
          = some (e :: es, rest))
  ∧ (∀ (lvl l0 : Nat) (k : String) (v : Json) (kvs : List (String × Json))
        (rest : List Char),
        (dumpFields lvl k v kvs).length + 2 ≤ f →
        pFields f (dumpFields lvl k v kvs ++ '\n' :: (pad l0 ++ '\x7d' :: rest))
          = some ((k, v) :: kvs, rest)) := by
  induction f with
  | zero =>
    refine ⟨fun lvl j rest h => absurd h (by omega),
            fun lvl l0 e es rest h => absurd h (by omega),
            fun lvl l0 k v kvs rest h => absurd h (by omega)⟩
  | succ f ih =>
    obtain ⟨ihV, ihI, ihF⟩ := ih
    refine ⟨?_, ?_, ?_⟩
    · -- values
      intro lvl j rest hlen
      cases j with
      | null => rw [dumpVal]; exact pVal_null f rest
      | bool b =>
        cases b with
        | true => rw [dumpVal]; exact pVal_true f rest
        | false => rw [dumpVal]; exact pVal_false f rest
      | str s =>
        obtain ⟨sd⟩ := s
        rw [dumpVal, dumpStr]
        have hflen : sd.length < ((String.mk sd).toList.flatMap escChar
            ++ '"' :: rest).length + 1 := by
          have := len_le_flat ((String.mk sd).toList)
          simp only [List.length_append, List.length_cons]
          simp only [String.toList] at this ⊢
          omega
        have hk := parse_dumpStr (String.mk sd) _ rest hflen
        have := pVal_str f ((String.mk sd).toList.flatMap escChar ++ '"' :: rest)
          rest (String.mk sd).toList hk
        simpa using this
      | arr es =>
        cases es with
        | nil =>
          rw [dumpVal]
          exact pVal_arrNil f _ rest (dropWs_nws _ (by decide) _)
        | cons e es =>
          rw [dumpVal] at hlen ⊢
          simp only [List.cons_append, List.append_assoc]
          obtain ⟨sep, hsep⟩ := dumpItems_decomp (lvl + 1) e es
          obtain ⟨c, t0, hhead, hws, hbr, hbc⟩ := dumpVal_head (lvl + 1) e
          have hstrip : dropWs (dumpItems (lvl + 1) e es
              ++ ('\n' :: (pad lvl ++ (']' :: rest))))
              = c :: (t0 ++ (sep ++ ('\n' :: (pad lvl ++ (']' :: rest))))) := by
            rw [hsep, List.append_assoc, dropWs_pad, List.append_assoc, hhead,
                List.cons_append, dropWs_nws _ hws]
          have hd : dropWs ('\n' :: (dumpItems (lvl + 1) e es
              ++ ('\n' :: (pad lvl ++ (']' :: rest)))))
              = c :: (t0 ++ (sep ++ ('\n' :: (pad lvl ++ (']' :: rest))))) := by
            rw [dropWs_nl, hstrip]
          refine pVal_arrCons f _ _ rest c (e :: es) hd hbr ?_
          have hcongr : pItems f (c :: (t0 ++ (sep ++ ('\n' :: (pad lvl ++ (']' :: rest))))))
              = pItems f (dumpItems (lvl + 1) e es
                  ++ ('\n' :: (pad lvl ++ (']' :: rest)))) := by
            refine pItems_congr f _ _ ?_
            rw [hstrip, dropWs_nws _ hws]
          rw [hcongr]
          refine ihI (lvl + 1) lvl e es rest ?_
          simp only [List.length_cons, List.length_append, pad,
            List.length_replicate] at hlen
          omega
      | obj ms =>
        cases ms with
        | nil =>
          rw [dumpVal]
          exact pVal_objNil f _ rest (dropWs_nws _ (by decide) _)
        | cons kv ms =>
          obtain ⟨k, v⟩ := kv
          rw [dumpVal] at hlen ⊢
          simp only [List.cons_append, List.append_assoc]
          obtain ⟨sep, hsep⟩ := dumpFields_decomp (lvl + 1) k v ms
          have hds : dumpStr k = '"' :: (k.toList.flatMap escChar ++ ['"']) := by
            rw [dumpStr]
          have hstrip : dropWs (dumpFields (lvl + 1) k v ms
              ++ ('\n' :: (pad lvl ++ ('\x7d' :: rest))))
              = '"' :: ((k.toList.flatMap escChar ++ ['"'])
                  ++ ((':' :: ' ' :: (dumpVal (lvl + 1) v ++ sep))
                      ++ ('\n' :: (pad lvl ++ ('\x7d' :: rest))))) := by
            rw [hsep, List.append_assoc, dropWs_pad, List.append_assoc, hds,
                List.cons_append, dropWs_nws _ (by decide)]
          have hd : dropWs ('\n' :: (dumpFields (lvl + 1) k v ms
              ++ ('\n' :: (pad lvl ++ ('\x7d' :: rest)))))
              = '"' :: ((k.toList.flatMap escChar ++ ['"'])
                  ++ ((':' :: ' ' :: (dumpVal (lvl + 1) v ++ sep))
                      ++ ('\n' :: (pad lvl ++ ('\x7d' :: rest))))) := by
            rw [dropWs_nl, hstrip]
          refine pVal_objCons f _ _ rest '"' ((k, v) :: ms) hd (by decide) ?_
          have hcongr : pFields f ('"' :: ((k.toList.flatMap escChar ++ ['"'])
              ++ ((':' :: ' ' :: (dumpVal (lvl + 1) v ++ sep))
                  ++ ('\n' :: (pad lvl ++ ('\x7d' :: rest))))))
              = pFields f (dumpFields (lvl + 1) k v ms
                  ++ ('\n' :: (pad lvl ++ ('\x7d' :: rest)))) := by
            refine pFields_congr f _ _ ?_
            rw [hstrip, dropWs_nws _ (by decide)]
          rw [hcongr]
          refine ihF (lvl + 1) lvl k v ms rest ?_
          simp only [List.length_cons, List.length_append, pad,
            List.length_replicate] at hlen
          omega
    · -- items
      intro lvl l0 e es rest hlen
      cases es with
      | nil =>
        rw [dumpItems] at hlen ⊢
        simp only [List.append_assoc]
        have hfe : (dumpVal lvl e).length < f := by
          simp only [List.length_append, pad, List.length_replicate] at hlen
          omega
        have hv : pVal f (pad lvl ++ (dumpVal lvl e
            ++ ('\n' :: (pad l0 ++ (']' :: rest)))))
            = some (e, '\n' :: (pad l0 ++ (']' :: rest))) := by
          have hc : pVal f (pad lvl ++ (dumpVal lvl e
              ++ ('\n' :: (pad l0 ++ (']' :: rest)))))
              = pVal f (dumpVal lvl e ++ ('\n' :: (pad l0 ++ (']' :: rest)))) :=
            pVal_congr f _ _ (dropWs_pad lvl _)
          rw [hc]
          exact ihV lvl e _ hfe
        refine pItems_last f _ _ rest e hv ?_
        rw [dropWs_nl, dropWs_pad, dropWs_nws _ (by decide)]
      | cons e2 es2 =>
        rw [dumpItems] at hlen ⊢
        simp only [List.append_assoc, List.cons_append]
        have hge := len_dumpVal_ge2 lvl e
        have hfe : (dumpVal lvl e).length < f := by
          simp only [List.length_append, List.length_cons, pad,
            List.length_replicate] at hlen
          omega
        have hfi : (dumpItems lvl e2 es2).length + 2 ≤ f := by
          simp only [List.length_append, List.length_cons, pad,
            List.length_replicate] at hlen
          omega
        have hv : pVal f (pad lvl ++ (dumpVal lvl e ++ (',' :: '\n'
            :: (dumpItems lvl e2 es2 ++ ('\n' :: (pad l0 ++ (']' :: rest)))))))
            = some (e, ',' :: '\n' :: (dumpItems lvl e2 es2
                ++ ('\n' :: (pad l0 ++ (']' :: rest))))) := by
          have hc : pVal f (pad lvl ++ (dumpVal lvl e ++ (',' :: '\n'
              :: (dumpItems lvl e2 es2 ++ ('\n' :: (pad l0 ++ (']' :: rest)))))))
              = pVal f (dumpVal lvl e ++ (',' :: '\n'
                  :: (dumpItems lvl e2 es2 ++ ('\n' :: (pad l0 ++ (']' :: rest)))))) :=
            pVal_congr f _ _ (dropWs_pad lvl _)
          rw [hc]
          exact ihV lvl e _ hfe
        refine pItems_more f _ _ ('\n' :: (dumpItems lvl e2 es2
            ++ ('\n' :: (pad l0 ++ (']' :: rest))))) rest e (e2 :: es2) hv
          (dropWs_nws _ (by decide) _) ?_
        have hc : pItems f ('\n' :: (dumpItems lvl e2 es2
            ++ ('\n' :: (pad l0 ++ (']' :: rest)))))
            = pItems f (dumpItems lvl e2 es2 ++ ('\n' :: (pad l0 ++ (']' :: rest)))) :=
          pItems_congr f _ _ (dropWs_nl _)
        rw [hc]
        exact ihI lvl l0 e2 es2 rest hfi
    · -- fields
      intro lvl l0 k v kvs rest hlen
      cases kvs with
      | nil =>
        rw [dumpFields] at hlen ⊢
        simp only [List.append_assoc, List.cons_append]
        have hws : dropWs (pad lvl ++ (dumpStr k ++ (':' :: ' '
            :: (dumpVal lvl v ++ ('\n' :: (pad l0 ++ ('\x7d' :: rest)))))))
            = '"' :: (k.toList.flatMap escChar ++ ('"' :: (':' :: ' '
                :: (dumpVal lvl v ++ ('\n' :: (pad l0 ++ ('\x7d' :: rest))))))) := by
          rw [dropWs_pad, dumpStr, List.cons_append, dropWs_nws _ (by decide),
              List.append_assoc]
          rfl
        have hflen : k.toList.length < (k.toList.flatMap escChar ++ ('"' :: (':' :: ' '
            :: (dumpVal lvl v ++ ('\n' :: (pad l0 ++ ('\x7d' :: rest))))))).length + 1 := by
          have := len_le_flat k.toList
          simp only [List.length_append, List.length_cons]
          omega
        have hfv : (dumpVal lvl v).length < f := by
          simp only [List.length_append, List.length_cons, pad, dumpStr,
            List.length_replicate] at hlen
          omega
        have hv : pVal f (' ' :: (dumpVal lvl v
            ++ ('\n' :: (pad l0 ++ ('\x7d' :: rest)))))
            = some (v, '\n' :: (pad l0 ++ ('\x7d' :: rest))) := by
          have hc : pVal f (' ' :: (dumpVal lvl v
              ++ ('\n' :: (pad l0 ++ ('\x7d' :: rest)))))
              = pVal f (dumpVal lvl v ++ ('\n' :: (pad l0 ++ ('\x7d' :: rest)))) :=
            pVal_congr f _ _ (dropWs_ws _ (by decide) _)
          rw [hc]
          exact ihV lvl v _ hfv
        have := pFields_last f _ _ _ _ _ _ _ v hws
          (parse_dumpStr k _ _ hflen) (dropWs_nws _ (by decide) _) hv
          (by rw [dropWs_nl, dropWs_pad, dropWs_nws _ (by decide)])
        rw [this]
        have hmk : String.mk k.toList = k := by cases k; rfl
        rw [hmk]
      | cons kv2 kvs2 =>
        obtain ⟨k2, v2⟩ := kv2
        rw [dumpFields] at hlen ⊢
        simp only [List.append_assoc, List.cons_append]
        have hws : dropWs (pad lvl ++ (dumpStr k ++ (':' :: ' '
            :: (dumpVal lvl v ++ (',' :: '\n' :: (dumpFields lvl k2 v2 kvs2
                ++ ('\n' :: (pad l0 ++ ('\x7d' :: rest)))))))))
            = '"' :: (k.toList.flatMap escChar ++ ('"' :: (':' :: ' '
                :: (dumpVal lvl v ++ (',' :: '\n' :: (dumpFields lvl k2 v2 kvs2
                    ++ ('\n' :: (pad l0 ++ ('\x7d' :: rest))))))))) := by
          rw [dropWs_pad, dumpStr, List.cons_append, dropWs_nws _ (by decide),
              List.append_assoc]
          rfl
        have hflen : k.toList.length < (k.toList.flatMap escChar ++ ('"' :: (':' :: ' '
            :: (dumpVal lvl v ++ (',' :: '\n' :: (dumpFields lvl k2 v2 kvs2
                ++ ('\n' :: (pad l0 ++ ('\x7d' :: rest))))))))).length + 1 := by
          have := len_le_flat k.toList
          simp only [List.length_append, List.length_cons]
          omega
        have hge := len_dumpVal_ge2 lvl v
        have hfv : (dumpVal lvl v).length < f := by
          simp only [List.length_append, List.length_cons, pad, dumpStr,
            List.length_replicate] at hlen
          omega
        have hff : (dumpFields lvl k2 v2 kvs2).length + 2 ≤ f := by
          simp only [List.length_append, List.length_cons, pad, dumpStr,
            List.length_replicate] at hlen
          omega
        have hv : pVal f (' ' :: (dumpVal lvl v ++ (',' :: '\n'
            :: (dumpFields lvl k2 v2 kvs2 ++ ('\n' :: (pad l0 ++ ('\x7d' :: rest)))))))
            = some (v, ',' :: '\n' :: (dumpFields lvl k2 v2 kvs2
                ++ ('\n' :: (pad l0 ++ ('\x7d' :: rest))))) := by
          have hc : pVal f (' ' :: (dumpVal lvl v ++ (',' :: '\n'
              :: (dumpFields lvl k2 v2 kvs2 ++ ('\n' :: (pad l0 ++ ('\x7d' :: rest)))))))
              = pVal f (dumpVal lvl v ++ (',' :: '\n'
                  :: (dumpFields lvl k2 v2 kvs2 ++ ('\n' :: (pad l0 ++ ('\x7d' :: rest)))))) :=
            pVal_congr f _ _ (dropWs_ws _ (by decide) _)
          rw [hc]
          exact ihV lvl v _ hfv
        have h2 : pFields f ('\n' :: (dumpFields lvl k2 v2 kvs2
            ++ ('\n' :: (pad l0 ++ ('\x7d' :: rest)))))
            = some ((k2, v2) :: kvs2, rest) := by
          have hc : pFields f ('\n' :: (dumpFields lvl k2 v2 kvs2
              ++ ('\n' :: (pad l0 ++ ('\x7d' :: rest)))))
              = pFields f (dumpFields lvl k2 v2 kvs2
                  ++ ('\n' :: (pad l0 ++ ('\x7d' :: rest)))) :=
            pFields_congr f _ _ (dropWs_nl _)
          rw [hc]
          exact ihF lvl l0 k2 v2 kvs2 rest hff
        have := pFields_more f _ _ _ _ _ _ _ _ v ((k2, v2) :: kvs2) hws
          (parse_dumpStr k _ _ hflen) (dropWs_nws _ (by decide) _) hv
          (dropWs_nws _ (by decide) _) h2
        rw [this]
        have hmk : String.mk k.toList = k := by cases k; rfl
        rw [hmk]

theorem parseJson_dumps (j : Json) : parseJson (dumps j) = some j := by
  unfold parseJson
  have h := (rt_main ((dumps j).length + 1)).1 0 j [] (by unfold dumps; omega)
  rw [List.append_nil] at h
  show (match pVal ((dumps j).length + 1) (dumps j) with
    | some (j, r) => if dropWs r = [] then some j else none
    | none => none) = some j
  rw [show pVal ((dumps j).length + 1) (dumps j) = some (j, []) from h]
  rfl

theorem load_save (st : Store) (v : Json) : load_state (save_state st v) = v := by
  unfold load_state save_state
  simp [parseJson_dumps]

theorem load_dumps (v : Json) (n : Nat) : load_state ⟨some (dumps v), n⟩ = v := by
  unfold load_state
  simp [parseJson_dumps]

theorem mark_installed_dumps (kvs kvs₂ : List (String × Json)) (xs : List Json)
    (n : Nat) (oid : String)
    (hget : (jlookup kvs "installed").getD (Json.arr []) = Json.arr xs)
    (hmem : memStr oid xs = false)
    (hsk : setKey kvs "installed" (Json.arr (xs ++ [Json.str oid])) = kvs₂) :
    mark_installed ⟨some (dumps (Json.obj kvs)), n⟩ oid
      = some ⟨some (dumps (Json.obj kvs₂)), n + 1⟩ := by
  subst hsk
  unfold mark_installed
  rw [load_dumps]
  simp only []
  rw [hget]
  simp only []
  rw [if_neg (by simp [hmem])]
  rfl

theorem jlookup_setKey_self (kvs : List (String × Json)) (k : String) (v : Json) :
    jlookup (setKey kvs k v) k = some v := by
  induction kvs with
  | nil => simp [setKey, jlookup]
  | cons kv t ih =>
    obtain ⟨k1, v1⟩ := kv
    by_cases h : k1 = k
    · simp [setKey, jlookup, h]
    · simp [setKey, jlookup, h, ih]

theorem jlookup_setKey_ne (kvs : List (String × Json)) (k : String) (v : Json)
    (k' : String) (h : ¬k' = k) :
    jlookup (setKey kvs k v) k' = jlookup kvs k' := by
  induction kvs with
  | nil =>
    simp only [setKey, jlookup]
    rw [if_neg (fun hh => h hh.symm)]
  | cons kv t ih =>
    obtain ⟨k1, v1⟩ := kv
    by_cases h1 : k1 = k
    · subst h1
      simp only [setKey, if_pos rfl, jlookup]
      rw [if_neg (fun hh => h hh.symm), if_neg (fun hh => h hh.symm)]
    · simp only [setKey, if_neg h1, jlookup]
      by_cases h2 : k1 = k'
      · rw [if_pos h2, if_pos h2]
      · rw [if_neg h2, if_neg h2, ih]

theorem memStr_append (oid : String) (xs ys : List Json) :
    memStr oid (xs ++ ys) = (memStr oid xs || memStr oid ys) := by
  induction xs with
  | nil => simp [memStr]
  | cons x t ih =>
    cases x <;> simp [memStr, ih, Bool.or_assoc]

theorem memStr_single_self (oid : String) : memStr oid [Json.str oid] = true := by
  simp [memStr]

theorem mark_installed_cases (st : Store) (oid : String) (st' : Store)
    (h : mark_installed st oid = some st') :
    ∃ kvs xs, load_state st = Json.obj kvs ∧
      (jlookup kvs "installed").getD (Json.arr []) = Json.arr xs ∧
      ((memStr oid xs = true ∧ st' = st) ∨
       (memStr oid xs = false ∧
        st' = save_state st
          (Json.obj (setKey kvs "installed" (Json.arr (xs ++ [Json.str oid])))))) := by
  unfold mark_installed at h
  split at h
  case _ kvs heq =>
    split at h
    case _ xs heq2 =>
      refine ⟨kvs, xs, heq, heq2, ?_⟩
      by_cases hm : memStr oid xs = true
      · rw [if_pos hm] at h
        exact Or.inl ⟨hm, (Option.some.injEq _ _).mp h.symm⟩
      · rw [if_neg hm] at h
        exact Or.inr ⟨by simpa using hm, (Option.some.injEq _ _).mp h.symm⟩
    all_goals exact absurd h (by simp)
  all_goals exact absurd h (by simp)

theorem mark_uninstalled_cases (st : Store) (oid : String) (st' : Store)
    (h : mark_uninstalled st oid = some st') :
    ∃ kvs xs, load_state st = Json.obj kvs ∧
      (jlookup kvs "installed").getD (Json.arr []) = Json.arr xs ∧
      ((memStr oid xs = false ∧ st' = st) ∨
       (memStr oid xs = true ∧
        st' = save_state st
          (Json.obj (setKey kvs "installed" (Json.arr (removeStr oid xs)))))) := by
  unfold mark_uninstalled at h
  split at h
  case _ kvs heq =>
    split at h
    case _ xs heq2 =>
      refine ⟨kvs, xs, heq, heq2, ?_⟩
      by_cases hm : memStr oid xs = true
      · rw [if_pos hm] at h
        exact Or.inr ⟨hm, (Option.some.injEq _ _).mp h.symm⟩
      · rw [if_neg hm] at h
        exact Or.inl ⟨by simpa using hm, (Option.some.injEq _ _).mp h.symm⟩
    all_goals exact absurd h (by simp)
  all_goals exact absurd h (by simp)

theorem get_installed_obj (st : Store) (kvs : List (String × Json)) (ys : List Json)
    (hl : load_state st = Json.obj kvs)
    (hg : (jlookup kvs "installed").getD (Json.arr []) = Json.arr ys)
    (hh : ys.all jhashable = true) :
    get_installed st = some ys := by
  unfold get_installed
  rw [hl]
  simp only []
  rw [hg]
  simp only []
  rw [if_pos hh]

theorem get_installed_elim (st : Store) (l : List Json)
    (h : get_installed st = some l) :
    ∃ kvs, load_state st = Json.obj kvs ∧
      (jlookup kvs "installed").getD (Json.arr []) = Json.arr l ∧
      l.all jhashable = true := by
  unfold get_installed at h
  split at h
  case _ kvs heq =>
    split at h
    case _ xs heq2 =>
      split at h
      · cases h
        exact ⟨kvs, heq, heq2, by assumption⟩
      · exact absurd h (by simp)
    all_goals exact absurd h (by simp)
  all_goals exact absurd h (by simp)

theorem mark_installed_get (st st' : Store) (oid : String) (l : List Json)
    (h : mark_installed st oid = some st') (hg : get_installed st = some l) :
    (memStr oid l = true ∧ st' = st) ∨
    (memStr oid l = false ∧ get_installed st' = some (l ++ [Json.str oid])) := by
  obtain ⟨kvs, xs, hload, hgetd, hcase⟩ := mark_installed_cases st oid st' h
  obtain ⟨kvs2, hload2, hgetd2, hhash⟩ := get_installed_elim st l hg
  rw [hload] at hload2
  injection hload2 with hk
  subst hk
  rw [hgetd] at hgetd2
  injection hgetd2 with hx
  subst hx
  rcases hcase with ⟨hm, rfl⟩ | ⟨hm, rfl⟩
  · exact Or.inl ⟨hm, rfl⟩
  · refine Or.inr ⟨hm, ?_⟩
    refine get_installed_obj _
      (setKey kvs "installed" (Json.arr (xs ++ [Json.str oid]))) _
      (load_save _ _) ?_ ?_
    · rw [jlookup_setKey_self]
      rfl
    · rw [List.all_append]
      simp [hhash, jhashable]

/-- C8: `markInstalled(id)` is idempotent: from any persisted state, once
`mark_installed st oid` has produced `st'`, running it again on `st'` is
a no-op yielding exactly `st'`, and the InstalledSet after the first
call holds `oid` without a duplicate insert - it is unchanged when `oid`
was already present, and exactly the old list with `oid` appended once
when it was absent. -/
theorem c8_mark_installed_idempotent (st st' : Store) (oid : String)
    (h : mark_installed st oid = some st') :
    mark_installed st' oid = some st' ∧
    ∀ l, get_installed st = some l →
      (memStr oid l = true ∧ get_installed st' = some l) ∨
      (memStr oid l = false ∧ get_installed st' = some (l ++ [Json.str oid])) := by
  constructor
  · obtain ⟨kvs, xs, hload, hgetd, hcase⟩ := mark_installed_cases st oid st' h
    rcases hcase with ⟨hm, rfl⟩ | ⟨hm, rfl⟩
    · unfold mark_installed
      rw [hload]
      simp only []
      rw [hgetd]
      simp only []
      rw [if_pos hm]
    · unfold mark_installed
      rw [load_save]
      simp only []
      rw [jlookup_setKey_self]
      show (if memStr oid (xs ++ [Json.str oid]) = true then _ else _) = _
      rw [if_pos (by rw [memStr_append, memStr_single_self]; simp)]
  · intro l hg
    rcases mark_installed_get st st' oid l h hg with ⟨hm, rfl⟩ | ⟨hm, h2⟩
    · exact Or.inl ⟨hm, hg⟩
    · exact Or.inr ⟨hm, h2⟩

/-- C10: `mark_installed`/`mark_uninstalled` touch at most the
`"installed"` key of the stored JSON object - every other key of the
loaded state is written back unchanged - and when the operation is a
no-op (the id already present for install, absent for uninstall) the
state file is not rewritten at all: the store, write count included, is
returned exactly as it was. -/
theorem c10_mark_touches_only_installed :
    (∀ (st : Store) (oid : String) (st' : Store) (kvs : List (String × Json)),
        mark_installed st oid = some st' → load_state st = Json.obj kvs →
        ∃ kvs', load_state st' = Json.obj kvs' ∧
          ∀ k, ¬k = "installed" → jlookup kvs' k = jlookup kvs k)
  ∧ (∀ (st : Store) (oid : String) (st' : Store) (kvs : List (String × Json)),
        mark_uninstalled st oid = some st' → load_state st = Json.obj kvs →
        ∃ kvs', load_state st' = Json.obj kvs' ∧
          ∀ k, ¬k = "installed" → jlookup kvs' k = jlookup kvs k)
  ∧ (∀ (st : Store) (oid : String) (kvs : List (String × Json)) (xs : List Json),
        load_state st = Json.obj kvs →
        (jlookup kvs "installed").getD (Json.arr []) = Json.arr xs →
        memStr oid xs = true → mark_installed st oid = some st)
  ∧ (∀ (st : Store) (oid : String) (kvs : List (String × Json)) (xs : List Json),
        load_state st = Json.obj kvs →
        (jlookup kvs "installed").getD (Json.arr []) = Json.arr xs →
        memStr oid xs = false → mark_uninstalled st oid = some st) := by
  refine ⟨?_, ?_, ?_, ?_⟩
  · intro st oid st' kvs h hload
    obtain ⟨kvs0, xs, hload0, hgetd, hcase⟩ := mark_installed_cases st oid st' h
    rw [hload] at hload0
    injection hload0 with hk
    subst hk
    rcases hcase with ⟨hm, rfl⟩ | ⟨hm, rfl⟩
    · exact ⟨kvs, hload, fun k hk => rfl⟩
    · exact ⟨setKey kvs "installed" (Json.arr (xs ++ [Json.str oid])),
        load_save _ _, fun k hk => jlookup_setKey_ne kvs _ _ k hk⟩
  · intro st oid st' kvs h hload
    obtain ⟨kvs0, xs, hload0, hgetd, hcase⟩ := mark_uninstalled_cases st oid st' h
    rw [hload] at hload0
    injection hload0 with hk
    subst hk
    rcases hcase with ⟨hm, rfl⟩ | ⟨hm, rfl⟩
    · exact ⟨kvs, hload, fun k hk => rfl⟩
    · exact ⟨setKey kvs "installed" (Json.arr (removeStr oid xs)),
        load_save _ _, fun k hk => jlookup_setKey_ne kvs _ _ k hk⟩
  · intro st oid kvs xs hload hgetd hm
    unfold mark_installed
    rw [hload]
    simp only []
    rw [hgetd]
    simp only []
    rw [if_pos hm]
  · intro st oid kvs xs hload hgetd hm
    unfold mark_uninstalled
    rw [hload]
    simp only []
    rw [hgetd]
    simp only []
    rw [if_neg (by simp [hm])]

theorem memStr_map_str (x : String) (ids : List String) :
    memStr x (ids.map Json.str) = true ↔ x ∈ ids := by
  induction ids with
  | nil => simp [memStr]
  | cons i t ih =>
    simp only [List.map_cons, memStr, Bool.or_eq_true, beq_iff_eq, ih,
      List.mem_cons]
    constructor
    · rintro (rfl | h)
      · exact Or.inl rfl
      · exact Or.inr h
    · rintro (rfl | h)
      · exact Or.inl rfl
      · exact Or.inr h

theorem all_map_str (ids : List String) :
    (ids.map Json.str).all jhashable = true := by
  induction ids with
  | nil => rfl
  | cons i t ih => simp [jhashable, ih]

/-- C7: `load_state` returns the empty installed state whenever the
durable state file is absent or its content fails to parse as JSON;
such corruption never raises - `get_installed` then yields the empty
set, exactly as for the state `\x7b"installed": []\x7d`. -/
theorem c7_corrupt_state_is_empty (st : Store)
    (h : st.file = none ∨ ∃ c, st.file = some c ∧ parseJson c = none) :
    load_state st = emptyState ∧ get_installed st = some [] := by
  have hl : load_state st = emptyState := by
    unfold load_state
    rcases h with h | ⟨c, hc, hp⟩
    · rw [h]
    · rw [hc]
      simp only []
      rw [hp]
  refine ⟨hl, ?_⟩
  exact get_installed_obj st [("installed", Json.arr [])] []
    (by rw [hl]; rfl) rfl rfl

/-- C4: the store round-trips.  First, `save(load())` is a no-op on the
stored bytes: for a file that holds a serialization `dumps v` (the only
content `save_state` ever writes, key order preserved by the
insertion-ordered dict), loading and saving writes back the identical
content.  Second, for every finite set of string ids, saving the state
`\x7b"installed": [...ids]\x7d` and loading again reconstructs exactly
that id set. -/
theorem c4_save_load_roundtrip :
    (∀ (st : Store) (v : Json), st.file = some (dumps v) →
        (save_state st (load_state st)).file = st.file)
  ∧ (∀ (st : Store) (ids : List String),
        ∃ l, get_installed (save_state st
            (Json.obj [("installed", Json.arr (ids.map Json.str))])) = some l ∧
          l = ids.map Json.str ∧
          ∀ x, memStr x l = true ↔ x ∈ ids) := by
  constructor
  · intro st v hf
    have hl : load_state st = v := by
      unfold load_state
      rw [hf]
      simp only []
      rw [parseJson_dumps]
    show some (dumps (load_state st)) = st.file
    rw [hl, hf]
  · intro st ids
    refine ⟨ids.map Json.str, ?_, rfl, fun x => memStr_map_str x ids⟩
    exact get_installed_obj _ [("installed", Json.arr (ids.map Json.str))] _
      (load_save _ _) rfl (all_map_str ids)

/-- C5: `build_command` produces the executable path `<scriptDir>/install`,
then the `uninstall` keyword exactly in uninstall mode, then the option
ids in caller order; in particular the two concrete instances from the
spec hold. -/
theorem c5_build_command_shape :
    (∀ (d : String) (opts : List String) (u : Bool),
        build_command d opts u
          = [d ++ "/install"] ++ (if u then ["uninstall"] else []) ++ opts)
  ∧ build_command "/d" ["a", "b"] false = ["/d/install", "a", "b"]
  ∧ build_command "/d" ["a"] true = ["/d/install", "uninstall", "a"] := by
  refine ⟨?_, by decide, by decide⟩
  intro d opts u
  unfold build_command
  cases u <;> simp

/-- C6: the argv list built inside `run_installation` and passed to
`asyncio.create_subprocess_exec` coincides, for every script directory,
option list and mode, with `build_command` on the same arguments - the
spawned command and the rendered `$ ...` preview agree. -/
theorem c6_run_argv_eq_build_command (d : String) (opts : List String) (u : Bool) :
    run_installation_argv d opts u = build_command d opts u := rfl

theorem modalDismissals_cons_none (s : ModalState) (e : ModalEv)
    (es : List ModalEv) (s2 : ModalState) (h : modalStep s e = (s2, none)) :
    modalDismissals s (e :: es) = modalDismissals s2 es := by
  show (match modalStep s e with
    | (s2, some b) => b :: modalDismissals s2 es
    | (s2, none) => modalDismissals s2 es) = modalDismissals s2 es
  rw [h]

theorem modalStep_escape_running (s : ModalState) (hc : s.completed = false) :
    modalStep s ModalEv.pressEscape = (s, none) := by
  unfold modalStep
  rw [hc]
  simp

theorem modalStep_close_disabled (s : ModalState) (hd : s.closeDisabled = true) :
    modalStep s ModalEv.pressClose = (s, none) := by
  unfold modalStep
  rw [hd]
  simp

theorem modalDismissals_no_terminal :
    ∀ (es : List ModalEv) (s : ModalState), s.completed = false →
      s.closeDisabled = true → (∀ e ∈ es, isTerminalEv e = false) →
      modalDismissals s es = [] := by
  intro es
  induction es with
  | nil => intro s _ _ _; rfl
  | cons e es ih =>
    intro s hc hd hall
    cases e with
    | taskDone code =>
      exact absurd (hall (ModalEv.taskDone code) (by simp)) (by simp [isTerminalEv])
    | taskErr =>
      exact absurd (hall ModalEv.taskErr (by simp)) (by simp [isTerminalEv])
    | pressClose =>
      rw [modalDismissals_cons_none s _ es s (modalStep_close_disabled s hd)]
      exact ih s hc hd (fun e he => hall e (by simp [he]))
    | pressEscape =>
      rw [modalDismissals_cons_none s _ es s (modalStep_escape_running s hc)]
      exact ih s hc hd (fun e he => hall e (by simp [he]))

/-- C9: while the modal run is in progress (`completed` still false) the
escape binding never dismisses; any dismissal value emitted during a
mounted modal's event trace requires an earlier terminal task event
(exit or exception); and once completed, escape dismisses with exactly
the stored boolean `success`. -/
theorem c9_no_dismissal_while_running :
    (∀ s : ModalState, s.completed = false →
        (modalStep s ModalEv.pressEscape).2 = none)
  ∧ (∀ es : List ModalEv, modalDismissals initModal es ≠ [] →
        ∃ e ∈ es, isTerminalEv e = true)
  ∧ (∀ s : ModalState, s.completed = true →
        (modalStep s ModalEv.pressEscape).2 = some s.success) := by
  refine ⟨?_, ?_, ?_⟩
  · intro s hc
    rw [modalStep_escape_running s hc]
  · intro es h
    by_contra hno
    push_neg at hno
    exact h (modalDismissals_no_terminal es initModal rfl rfl
      (fun e he => by simpa using hno e he))
  · intro s hc
    unfold modalStep
    rw [hc]
    simp

theorem select_all_parts (m : OptionsMap) (ex : Bool) :
    (select_all m ex).1 = m.map (fun e =>
        if ex && e.2.option.excluded_from_all then e
        else (e.1, { e.2 with selected := true }))
  ∧ (select_all m ex).2 = (m.filter (fun e =>
        !(ex && e.2.option.excluded_from_all) && !e.2.selected)).map
          (fun e => SelectedMsg.mk e.2.option.id true) := by
  induction m with
  | nil => exact ⟨rfl, rfl⟩
  | cons e t ih =>
    obtain ⟨k, it⟩ := e
    obtain ⟨ih1, ih2⟩ := ih
    by_cases h1 : (ex && it.option.excluded_from_all) = true
    · obtain ⟨hx1, hx2⟩ : ex = true ∧ it.option.excluded_from_all = true := by
        simpa using h1
      subst hx1
      constructor
      · simp [select_all, hx2, ih1]
      · simp [select_all, hx2, ih2, List.filter_cons]
    · have hx : ¬(ex = true ∧ it.option.excluded_from_all = true) := by
        simpa using h1
      have hxb : (ex && it.option.excluded_from_all) = false := by simpa using h1
      by_cases h2 : it.selected = true
      · constructor
        · simp [select_all, h1, h2, ih1, toggle_selection, hx]
          cases it
          simp_all
        · simp [select_all, h1, h2, ih2, toggle_selection, hx, hxb,
            List.filter_cons]
      · have hsel : it.selected = false := by simpa using h2
        have hor : ex = false ∨ it.option.excluded_from_all = false := by
          cases hex : ex with
          | false => exact Or.inl rfl
          | true => exact Or.inr (by simpa [hex] using hxb)
        constructor
        · simp [select_all, h1, h2, ih1, toggle_selection, hx]
        · simp [select_all, h1, h2, ih2, toggle_selection, hx, hxb, hsel, hor,
            List.filter_cons]

theorem gso_mapped (m : OptionsMap) (ex : Bool) :
    get_selected_options (m.map (fun e =>
        if ex && e.2.option.excluded_from_all then e
        else (e.1, { e.2 with selected := true })))
      = (m.filter (fun e =>
          e.2.selected || !(ex && e.2.option.excluded_from_all))).map
            (fun e => e.1) := by
  induction m with
  | nil => rfl
  | cons e t ih =>
    obtain ⟨k, it⟩ := e
    unfold get_selected_options at ih ⊢
    simp only [List.map_cons, List.filter_cons]
    by_cases h1 : (ex && it.option.excluded_from_all) = true
    · obtain ⟨hpe, hpx⟩ : ex = true ∧ it.option.excluded_from_all = true := by
        simpa using h1
      subst hpe
      by_cases h2 : it.selected = true
      · simpa [h2, hpx] using ih
      · have hsel : it.selected = false := by simpa using h2
        simpa [hsel, hpx] using ih
    · have hq : ¬(ex = true ∧ it.option.excluded_from_all = true) := by
        simpa using h1
      have hxb : (ex && it.option.excluded_from_all) = false := by simpa using h1
      simpa [hq, hxb] using ih

/-- C3 (amended): `select_all` never deselects.  With
`exclude_special = true` the resulting selected id set is the prior
selected ids together with every catalog entry not flagged
`excluded_from_all` (an already-selected excluded item stays selected,
so the result is not exactly the non-excluded set); with `false` the
full map ends selected; and exactly the items that were newly selected
emit one `Selected` message each - already-selected items emit none. -/
theorem c3_select_all_amended (m : OptionsMap) :
    (∀ ex : Bool, get_selected_options (select_all m ex).1
        = (m.filter (fun e =>
            e.2.selected || !(ex && e.2.option.excluded_from_all))).map
              (fun e => e.1))
  ∧ (get_selected_options (select_all m false).1 = m.map (fun e => e.1))
  ∧ (∀ ex : Bool, (select_all m ex).2
      = (m.filter (fun e =>
          !(ex && e.2.option.excluded_from_all) && !e.2.selected)).map
            (fun e => SelectedMsg.mk e.2.option.id true)) := by
  refine ⟨?_, ?_, ?_⟩
  · intro ex
    rw [(select_all_parts m ex).1, gso_mapped]
  · rw [(select_all_parts m false).1, gso_mapped]
    simp
  · intro ex
    exact (select_all_parts m ex).2

/-- C3 as stated is false on this catalog: from the prior selection
state in which only `passwordless-sudo` (flagged `excluded_from_all`)
was toggled on, `select_all(exclude_special=true)` leaves it selected,
so the selected set is strictly larger than the set of catalog items
with `excluded_from_all = false`. -/
theorem c3_counterexample :
    "passwordless-sudo" ∈ get_selected_options
        (select_all (toggle_option (composeOptions []) "passwordless-sudo") true).1
    ∧ "passwordless-sudo" ∉ (OPTIONS.filter (fun o => !o.excluded_from_all)).map
        (fun o => o.id) := by
  decide

theorem lookupOpt_mark_option_installed (m : OptionsMap) (oid id : String) :
    lookupOpt (mark_option_installed m oid) id
      = (lookupOpt m id).map (fun it =>
          if id = oid then { set_installed it true with selected := false }
          else it) := by
  induction m with
  | nil => rfl
  | cons e t ih =>
    obtain ⟨k, it⟩ := e
    simp only [mark_option_installed, List.map_cons, lookupOpt]
    by_cases hk : k = id
    · subst hk
      simp [lookupOpt]
    · simpa [lookupOpt, hk, mark_option_installed] using ih

theorem sel_mem_isSome (m : OptionsMap) (id : String)
    (h : id ∈ get_selected_options m) : (lookupOpt m id).isSome = true := by
  induction m with
  | nil => simp [get_selected_options] at h
  | cons e t ih =>
    obtain ⟨k, it⟩ := e
    by_cases hk : k = id
    · simp [lookupOpt, hk]
    · simp only [lookupOpt, if_neg hk]
      apply ih
      unfold get_selected_options at h ⊢
      rw [List.filter_cons] at h
      by_cases hs : it.selected = true
      · rw [if_pos hs, List.map_cons] at h
        rcases List.mem_cons.mp h with h1 | h1
        · exact absurd h1.symm hk
        · exact h1
      · rw [if_neg hs] at h
        exact h

theorem installLoop_pres (sel : List String) : ∀ (st : Store) (m : OptionsMap)
    (st' : Store) (m' : OptionsMap),
    installLoop st m sel = some (st', m') →
    (∀ (l : List Json), get_installed st = some l →
       ∃ l', get_installed st' = some l' ∧
         ∀ x, memStr x l = true → memStr x l' = true)
    ∧ (∀ (id : String) (it : OptionItem), lookupOpt m id = some it →
        it.status = "installed" → it.selected = false →
        ∃ it', lookupOpt m' id = some it' ∧ it'.status = "installed"
          ∧ it'.selected = false) := by
  induction sel with
  | nil =>
    intro st m st' m' h
    cases h
    exact ⟨fun l hl => ⟨l, hl, fun x hx => hx⟩,
           fun id it hit hst hsel => ⟨it, hit, hst, hsel⟩⟩
  | cons oid rest ih =>
    intro st m st' m' h
    unfold installLoop at h
    split at h
    case _ st2 hmark =>
      obtain ⟨ihg, ihi⟩ := ih st2 (mark_option_installed m oid) st' m' h
      constructor
      · intro l hl
        rcases mark_installed_get st st2 oid l hmark hl with ⟨hm, rfl⟩ | ⟨hm, h2⟩
        · exact ihg l hl
        · obtain ⟨l', hl', hpres⟩ := ihg _ h2
          exact ⟨l', hl', fun x hx =>
            hpres x (by rw [memStr_append, hx]; rfl)⟩
      · intro id it hit hst hsel
        refine ihi id (if id = oid
            then { set_installed it true with selected := false } else it)
          ?_ ?_ ?_
        · rw [lookupOpt_mark_option_installed, hit]
          rfl
        · by_cases hio : id = oid <;> simp [hio, set_installed, hst]
        · by_cases hio : id = oid <;> simp [hio, set_installed, hsel]
    case _ => exact absurd h (by simp)

theorem lookupOpt_mark_isSome (m : OptionsMap) (oid id : String)
    (h : (lookupOpt m id).isSome = true) :
    (lookupOpt (mark_option_installed m oid) id).isSome = true := by
  rw [lookupOpt_mark_option_installed]
  cases hx : lookupOpt m id with
  | none => rw [hx] at h; simp at h
  | some it => rfl

theorem installLoop_sound (sel : List String) : ∀ (st : Store) (m : OptionsMap)
    (st' : Store) (m' : OptionsMap) (l0 : List Json),
    installLoop st m sel = some (st', m') →
    get_installed st = some l0 →
    ∀ id ∈ sel, (lookupOpt m id).isSome = true →
      (∃ l', get_installed st' = some l' ∧ memStr id l' = true)
      ∧ (∃ it', lookupOpt m' id = some it' ∧ it'.status = "installed"
          ∧ it'.selected = false) := by
  induction sel with
  | nil => intro st m st' m' l0 h hg id hid; simp at hid
  | cons oid rest ih =>
    intro st m st' m' l0 h hg id hid hsome
    unfold installLoop at h
    split at h
    case _ st2 hmark =>
      have hg2 : ∃ l2, get_installed st2 = some l2 ∧ memStr oid l2 = true := by
        rcases mark_installed_get st st2 oid l0 hmark hg with ⟨hm, rfl⟩ | ⟨hm, h2⟩
        · exact ⟨l0, hg, hm⟩
        · exact ⟨l0 ++ [Json.str oid], h2,
            by rw [memStr_append, memStr_single_self]; simp⟩
      obtain ⟨l2, hgl2, hmem2⟩ := hg2
      rcases List.mem_cons.mp hid with rfl | hid2
      · -- id is the id marked at this step: establish, then preserve
        obtain ⟨hpg, hpi⟩ := installLoop_pres rest st2 (mark_option_installed m id)
          st' m' h
        constructor
        · obtain ⟨l', hl', hpres⟩ := hpg l2 hgl2
          exact ⟨l', hl', hpres id hmem2⟩
        · cases hx : lookupOpt m id with
          | none => rw [hx] at hsome; simp at hsome
          | some it =>
            refine hpi id { set_installed it true with selected := false } ?_ rfl rfl
            rw [lookupOpt_mark_option_installed, hx]
            simp
      · -- id is marked later: recurse
        exact ih st2 (mark_option_installed m oid) st' m' l2 h hgl2 id hid2
          (lookupOpt_mark_isSome m oid id hsome)
    case _ => exact absurd h (by simp)

/-- C1: for a run request with a non-empty selected id list, when the
installer exits 0 the modal resolves with success and the completion
callback marks every requested id: each one is afterwards a member of
the InstalledSet that `load`/`get_installed` returns, and its option
item ends with status `"installed"` and its `selected` flag cleared.
(`get_installed st = some l0` states the starting store is readable,
e.g. a fresh or previously saved one.) -/
theorem c1_install_success_marks_all (st : Store) (m : OptionsMap)
    (st' : Store) (m' : OptionsMap) (l0 : List Json)
    (hsane : get_installed st = some l0)
    (_hne : get_selected_options m ≠ [])
    (hrun : on_complete_install st m (get_selected_options m) (modal_success 0)
        = some (st', m')) :
    ∀ id ∈ get_selected_options m,
      (∃ l', get_installed st' = some l' ∧ memStr id l' = true)
      ∧ (∃ it', lookupOpt m' id = some it' ∧ it'.status = "installed"
          ∧ it'.selected = false) := by
  intro id hid
  have hloop : installLoop st m (get_selected_options m) = some (st', m') := by
    simpa [on_complete_install, modal_success] using hrun
  exact installLoop_sound (get_selected_options m) st m st' m' l0 hloop hsane
    id hid (sel_mem_isSome m id hid)

/-- C2 (amended): on a non-zero exit code the modal resolves with
`success = False`, and the completion callback then changes nothing:
the store is untouched (no id added, no file write) and the option list
- in particular every item's status - is returned exactly as it was.
The `failed` status exists in the widget (`set_option_status`) but no
screen ever applies it; the failure is surfaced only in the modal's
output and the status bar. -/
theorem c2_failure_leaves_state_untouched (code : Int) (hc : ¬code = 0)
    (st : Store) (m : OptionsMap) (sel : List String) :
    modal_success code = false ∧
    on_complete_install st m sel (modal_success code) = some (st, m) := by
  have hf : modal_success code = false := by
    simpa [modal_success] using hc
  refine ⟨hf, ?_⟩
  rw [hf]
  rfl

/-- C2 is false as stated: with `claude` selected and the installer
exiting 1, the completion callback performs no persistence mutation and
leaves the item untouched, but the item's status stays `"pending"` - it
does not become `"failed"` as the claim requires. -/
theorem c2_counterexample :
    get_selected_options (toggle_option (composeOptions []) "claude") = ["claude"]
    ∧ on_complete_install ⟨none, 0⟩ (toggle_option (composeOptions []) "claude")
        ["claude"] (modal_success 1)
      = some (⟨none, 0⟩, toggle_option (composeOptions []) "claude")
    ∧ (lookupOpt (toggle_option (composeOptions []) "claude") "claude").map
        (fun it => it.status) = some "pending" := by
  refine ⟨by decide, rfl, by decide⟩

theorem c1_install_success_marks_all_witness :
    (∃ l', get_installed ⟨some (dumps (Json.obj [("installed",
          Json.arr [Json.str "claude"])])), 1⟩ = some l'
        ∧ memStr "claude" l' = true)
    ∧ (∃ it', lookupOpt (mark_option_installed
          (toggle_option (composeOptions []) "claude") "claude") "claude"
        = some it' ∧ it'.status = "installed" ∧ it'.selected = false) :=
  c1_install_success_marks_all ⟨none, 0⟩
    (toggle_option (composeOptions []) "claude")
    ⟨some (dumps (Json.obj [("installed", Json.arr [Json.str "claude"])])), 1⟩
    (mark_option_installed (toggle_option (composeOptions []) "claude") "claude")
    [] rfl (by decide)
    (by simp only [on_complete_install, modal_success]
        norm_num
        simp [installLoop, mark_installed, load_state, emptyState, jlookup,
          memStr, setKey, save_state, get_selected_options])
    "claude" (by decide)

theorem c2_failure_leaves_state_untouched_witness :
    modal_success 1 = false ∧
    on_complete_install ⟨none, 0⟩ (composeOptions []) ["claude"]
      (modal_success 1) = some (⟨none, 0⟩, composeOptions []) :=
  c2_failure_leaves_state_untouched 1 (by decide) ⟨none, 0⟩ (composeOptions [])
    ["claude"]

theorem c4_save_load_roundtrip_witness :
    (save_state ⟨some (dumps emptyState), 5⟩
        (load_state ⟨some (dumps emptyState), 5⟩)).file
      = (⟨some (dumps emptyState), 5⟩ : Store).file
    ∧ (∃ l, get_installed (save_state ⟨none, 0⟩
          (Json.obj [("installed", Json.arr (["claude"].map Json.str))])) = some l
        ∧ l = ["claude"].map Json.str
        ∧ ∀ x, memStr x l = true ↔ x ∈ ["claude"]) :=
  ⟨c4_save_load_roundtrip.1 ⟨some (dumps emptyState), 5⟩ emptyState rfl,
   c4_save_load_roundtrip.2 ⟨none, 0⟩ ["claude"]⟩

theorem c7_corrupt_state_is_empty_witness :
    (load_state ⟨none, 0⟩ = emptyState ∧ get_installed ⟨none, 0⟩ = some [])
    ∧ (load_state ⟨some ['n', 'o', 't'], 0⟩ = emptyState
       ∧ get_installed ⟨some ['n', 'o', 't'], 0⟩ = some []) :=
  ⟨c7_corrupt_state_is_empty ⟨none, 0⟩ (Or.inl rfl),
   c7_corrupt_state_is_empty ⟨some ['n', 'o', 't'], 0⟩
     (Or.inr ⟨['n', 'o', 't'], rfl, rfl⟩)⟩

theorem c8_mark_installed_idempotent_witness :
    mark_installed ⟨some (dumps (Json.obj [("installed",
        Json.arr [Json.str "fish"])])), 1⟩ "fish"
      = some ⟨some (dumps (Json.obj [("installed", Json.arr [Json.str "fish"])])), 1⟩
    ∧ ((memStr "fish" [] = true
        ∧ get_installed ⟨some (dumps (Json.obj [("installed",
            Json.arr [Json.str "fish"])])), 1⟩ = some [])
      ∨ (memStr "fish" [] = false
        ∧ get_installed ⟨some (dumps (Json.obj [("installed",
            Json.arr [Json.str "fish"])])), 1⟩ = some ([] ++ [Json.str "fish"]))) :=
  ⟨(c8_mark_installed_idempotent ⟨none, 0⟩ _ "fish"
      (by simp [mark_installed, load_state, emptyState, jlookup, memStr, setKey,
        save_state])).1,
   (c8_mark_installed_idempotent ⟨none, 0⟩ _ "fish"
      (by simp [mark_installed, load_state, emptyState, jlookup, memStr, setKey,
        save_state])).2 [] rfl⟩

theorem c9_no_dismissal_while_running_witness :
    (modalStep initModal ModalEv.pressEscape).2 = none
    ∧ (∃ e ∈ [ModalEv.pressEscape, ModalEv.taskDone 0, ModalEv.pressEscape],
        isTerminalEv e = true)
    ∧ (modalStep ⟨true, true, false⟩ ModalEv.pressEscape).2
        = some (true : Bool) :=
  ⟨c9_no_dismissal_while_running.1 initModal rfl,
   c9_no_dismissal_while_running.2.1
     [ModalEv.pressEscape, ModalEv.taskDone 0, ModalEv.pressEscape] (by decide),
   c9_no_dismissal_while_running.2.2 ⟨true, true, false⟩ rfl⟩

theorem c10_mark_touches_only_installed_witness :
    (∃ kvs', load_state ⟨some (dumps (Json.obj [("installed",
          Json.arr [Json.str "a"]), ("extra", Json.bool true)])), 1⟩
        = Json.obj kvs'
      ∧ ∀ k, ¬k = "installed" → jlookup kvs' k
          = jlookup [("installed", Json.arr []), ("extra", Json.bool true)] k)
    ∧ mark_installed ⟨some (dumps (Json.obj [("installed",
          Json.arr [Json.str "a"]), ("extra", Json.bool true)])), 1⟩ "a"
        = some ⟨some (dumps (Json.obj [("installed",
            Json.arr [Json.str "a"]), ("extra", Json.bool true)])), 1⟩
    ∧ mark_uninstalled ⟨some (dumps (Json.obj [("installed",
          Json.arr [Json.str "a"]), ("extra", Json.bool true)])), 1⟩ "b"
        = some ⟨some (dumps (Json.obj [("installed",
            Json.arr [Json.str "a"]), ("extra", Json.bool true)])), 1⟩ :=
  ⟨(c10_mark_touches_only_installed.1 ⟨some (dumps (Json.obj [("installed",
        Json.arr []), ("extra", Json.bool true)])), 0⟩ "a" _ _
      (mark_installed_dumps [("installed", Json.arr []), ("extra", Json.bool true)]
        [("installed", Json.arr [Json.str "a"]), ("extra", Json.bool true)]
        [] 0 "a" rfl rfl rfl)
      (load_dumps _ _)),
   (c10_mark_touches_only_installed.2.2.1 _ "a"
      [("installed", Json.arr [Json.str "a"]), ("extra", Json.bool true)]
      [Json.str "a"] (load_dumps _ _) rfl rfl),
   (c10_mark_touches_only_installed.2.2.2 _ "b"
      [("installed", Json.arr [Json.str "a"]), ("extra", Json.bool true)]
      [Json.str "a"] (load_dumps _ _) rfl rfl)⟩
